import Mathlib

/-!
Verification development for the packed-bubble layout engine of
`src/js/parts-more/PackedBubbleSeries.js`.

The source operates on 5-slot arrays `[x, y, radius, seriesIndex, pointIndex]`.
We embed these as the structure `Bubble` over the reals; the JavaScript float
operations (`Math.sqrt`, `Math.acos`, `Math.asin`, `Math.sin`, `Math.cos`,
`Math.ceil`, `Math.min`, `Math.max`, `Math.abs`) are modelled by their exact
real counterparts.  Stateful pieces (the ring array `bubblePos`, the cursor
`stage/j/k`, the chart fields) are modelled by explicit state passing.
-/

open Classical

/-- Model of one 5-slot bubble array `[x, y, radius, seriesIndex, pointIndex]`
used throughout `PackedBubbleSeries.js`. -/
structure Bubble where
  x : ℝ
  y : ℝ
  r : ℝ
  seriesIx : ℝ
  pointIx : ℝ

/-- Placeholder bubble used for out-of-range array accesses in the model; the
source never reads out of range in the runs we reason about. -/
def dummyBubble : Bubble := ⟨0, 0, 0, 0, 0⟩

/-- Model of `checkOverlap` (lines 169-178): Euclidean distance of the centers
minus the absolute value of the radius sum, compared against `-0.001`. -/
noncomputable def checkOverlap (bubble1 bubble2 : Bubble) : Prop :=
  Real.sqrt ((bubble1.x - bubble2.x) * (bubble1.x - bubble2.x) +
      (bubble1.y - bubble2.y) * (bubble1.y - bubble2.y)) -
    |bubble1.r + bubble2.r| < -0.001

/-- Model of `positionBubble` (lines 192-240): law-of-cosines angle `alfa`,
law-of-sines angle `beta`, quadrant corrections `gamma`/`delta`, and the
projection of the new center from `newOrigin` at distance
`newOrigin.r + nextBubble.r` along the final angle. -/
noncomputable def positionBubble (lastBubble newOrigin nextBubble : Bubble) : Bubble :=
  let distance := Real.sqrt ((lastBubble.x - newOrigin.x) ^ 2 +
    (lastBubble.y - newOrigin.y) ^ 2)
  let alfa := Real.arccos ((distance ^ 2 + (nextBubble.r + newOrigin.r) ^ 2 -
      (nextBubble.r + lastBubble.r) ^ 2) / (2 * (nextBubble.r + newOrigin.r) * distance))
  let beta := Real.arcsin (|lastBubble.x - newOrigin.x| / distance)
  let gamma := if lastBubble.y - newOrigin.y < 0 then (0 : ℝ) else Real.pi
  let delta := if (lastBubble.x - newOrigin.x) * (lastBubble.y - newOrigin.y) < 0
    then (1 : ℝ) else -1
  let finalAngle := gamma + alfa + beta * delta
  ⟨newOrigin.x + (newOrigin.r + nextBubble.r) * Real.sin finalAngle,
   newOrigin.y - (newOrigin.r + nextBubble.r) * Real.cos finalAngle,
   nextBubble.r, nextBubble.seriesIx, nextBubble.pointIx⟩

/-- State of the main loop of `placeBubbles` (lines 253-359): the ring array
`bubblePos` and the cursor `stage`, `j` (last bubble of the current ring) and
`k` (pivot within the previous ring). -/
structure PackState where
  bubblePos : List (List Bubble)
  stage : ℕ
  j : ℕ
  k : ℕ

/-- Model of line 308, `sortedArr[i][2] = sortedArr[i][2] || 1`: a zero
(falsy) radius is coerced to `1` before positioning. -/
noncomputable def coerceRadius (p : Bubble) : Bubble :=
  if p.r = 0 then { p with r := 1 } else p

/-- Model of one iteration of the main loop of `placeBubbles`
(lines 307-358).  The three branches: ring close (overlap with the first
bubble of the current ring), pivot advance (`stage > 1`, a next pivot exists
in the previous ring and the candidate overlaps it), plain acceptance. -/
noncomputable def packStep (st : PackState) (p : Bubble) : PackState :=
  let p' := coerceRadius p
  let cur := st.bubblePos.getD st.stage []
  let prev := st.bubblePos.getD (st.stage - 1) []
  let calculatedBubble := positionBubble (cur.getD st.j dummyBubble)
    (prev.getD st.k dummyBubble) p'
  if checkOverlap calculatedBubble (cur.getD 0 dummyBubble) then
    { bubblePos := st.bubblePos ++
        [[positionBubble (cur.getD st.j dummyBubble) (cur.getD 0 dummyBubble) p']],
      stage := st.stage + 1, j := 0, k := 0 }
  else if 1 < st.stage ∧ st.k + 1 < prev.length ∧
      checkOverlap calculatedBubble (prev.getD (st.k + 1) dummyBubble) then
    { st with
      bubblePos := st.bubblePos.set st.stage
        (cur ++ [positionBubble (cur.getD st.j dummyBubble)
          (prev.getD (st.k + 1) dummyBubble) p']),
      j := st.j + 1, k := st.k + 1 }
  else
    { st with
      bubblePos := st.bubblePos.set st.stage (cur ++ [calculatedBubble]),
      j := st.j + 1 }

/-- Model of the two seed bubbles of `placeBubbles` (lines 284-304): the
largest bubble at the coordinate origin forms ring 0, the second largest is
stacked directly above it (`y = 0 - r1 - r0`) and opens ring 1. -/
def initState (s0 s1 : Bubble) : PackState :=
  { bubblePos := [[⟨0, 0, s0.r, s0.seriesIx, s0.pointIx⟩],
      [⟨0, 0 - s1.r - s0.r, s1.r, s1.seriesIx, s1.pointIx⟩]],
    stage := 1, j := 0, k := 0 }

/-- Stable descending insertion by radius, auxiliary for `sortDesc`. -/
noncomputable def insertDesc (p : Bubble) : List Bubble → List Bubble
  | [] => [p]
  | q :: t => if q.r < p.r then p :: q :: t else q :: insertDesc p t

/-- Model of line 267, `allDataPoints.sort((a, b) => b[2] - a[2])`: the
stable descending sort by radius (slot 2) that JavaScript engines perform. -/
noncomputable def sortDesc (pts : List Bubble) : List Bubble :=
  pts.foldl (fun acc p => insertDesc p acc) []

/-- Model of the main path of `placeBubbles` (two or more points): seed the
two largest bubbles, fold the loop body over the remaining sorted points. -/
noncomputable def placeBubblesLoop (pts : List Bubble) : PackState :=
  match sortDesc pts with
  | s0 :: s1 :: rest => rest.foldl packStep (initState s0 s1)
  | [s0] => initState s0 s0
  | [] => initState dummyBubble dummyBubble

/-- Model of `chart.rawPositions` (line 364): all rings of the finished loop
flattened into a single bubble list. -/
noncomputable def rawPositions (pts : List Bubble) : List Bubble :=
  (placeBubblesLoop pts).bubblePos.flatten

/-- Plot-area rectangle read by `resizeRadius` (lines 382-389), fields
`plotLeft`, `plotTop`, `plotWidth` (called `chartWidth` there) and
`plotHeight` (called `chartHeight`). -/
structure ChartRect where
  plotLeft : ℝ
  plotTop : ℝ
  plotWidth : ℝ
  plotHeight : ℝ

/-- Model of the `minX` fold of `resizeRadius` (lines 397-407) for a
non-empty position list.  The source seeds the fold with `+Infinity`, which
has no counterpart in `ℝ`; for non-empty input the result is the same
minimum, and `resizeRadius` only ever runs with at least two bubbles. -/
noncomputable def minXOf : List Bubble → ℝ
  | [] => 0
  | q :: t => t.foldl (fun m p => min m (p.x - p.r)) (q.x - q.r)

/-- Model of the `maxX` fold of `resizeRadius` (lines 397-407), see
`minXOf`. -/
noncomputable def maxXOf : List Bubble → ℝ
  | [] => 0
  | q :: t => t.foldl (fun m p => max m (p.x + p.r)) (q.x + q.r)

/-- Model of the `minY` fold of `resizeRadius` (lines 397-407), see
`minXOf`. -/
noncomputable def minYOf : List Bubble → ℝ
  | [] => 0
  | q :: t => t.foldl (fun m p => min m (p.y - p.r)) (q.y - q.r)

/-- Model of the `maxY` fold of `resizeRadius` (lines 397-407), see
`minXOf`. -/
noncomputable def maxYOf : List Bubble → ℝ
  | [] => 0
  | q :: t => t.foldl (fun m p => max m (p.y + p.r)) (q.y + q.r)

/-- Model of `smallerDimension` (lines 409-415): the smaller of the two
ratios between usable plot span and bounding-box span. -/
noncomputable def smallerDimension (c : ChartRect) (ps : List Bubble) : ℝ :=
  min ((c.plotWidth - c.plotLeft) / (maxXOf ps - minXOf ps))
    ((c.plotHeight - c.plotTop) / (maxYOf ps - minYOf ps))

/-- Model of the branch of `resizeRadius` (lines 417-434).  The source
recursively re-enters `placeBubbles` on the rescaled circles; following the
spec's `FinalLayout | RepackRequest` contract the repack request is modelled
as `Sum.inl` carrying the circles with only the radius multiplied by the
scale, and the finalisation as `Sum.inr (diffX, diffY)`. -/
noncomputable def resizeRadius (c : ChartRect) (ps : List Bubble) :
    List Bubble ⊕ (ℝ × ℝ) :=
  if 1e-10 < |smallerDimension c ps - 1| then
    Sum.inl (ps.map fun p => { p with r := p.r * smallerDimension c ps })
  else
    Sum.inr (c.plotWidth / 2 + c.plotLeft - minXOf ps - (maxXOf ps - minXOf ps) / 2,
      c.plotHeight / 2 + c.plotTop - minYOf ps - (maxYOf ps - minYOf ps) / 2)

/-- Model of the per-value radius computation inside `getRadius`
(lines 473-497): `null`/zero values give a `null` radius, values below
`minSize` give `minSize - 1`, otherwise the value is normalised (`0.5` when
the radius range is not positive), optionally square-rooted for
area-proportional sizing, and the result is `ceil(minSize + pos * range) / 2`. -/
noncomputable def getRadiusValue (sizeByArea : Bool) (minSize maxSize : ℝ)
    (value : Option ℝ) : Option ℝ :=
  match value with
  | none => none
  | some v =>
    if v = 0 then none
    else if v < minSize then some (minSize - 1)
    else
      let pos := if 0 < maxSize - minSize then (v - minSize) / (maxSize - minSize)
        else 0.5
      let pos2 := if sizeByArea = true ∧ 0 ≤ pos then Real.sqrt pos else pos
      some (((⌈minSize + pos2 * (maxSize - minSize)⌉ : ℤ) : ℝ) / 2)

/-- Model of one entry of `series.allDataPoints` as built by
`accumulateAllPoints` (lines 92-97): `[null, null, value, seriesIndex,
pointIndex]`, where slot 2 (`value`) is later overwritten by `getRadius`. -/
structure DataRow where
  x : Option ℝ
  y : Option ℝ
  value : Option ℝ
  seriesIx : ℝ
  pointIx : ℝ

/-- Model of the array effect of `getRadius` (lines 473-497): slot 2 of
every entry of `allDataPoints` is overwritten with the computed radius, the
other slots are untouched. -/
noncomputable def getRadius (sizeByArea : Bool) (minSize maxSize : ℝ)
    (pts : List DataRow) : List DataRow :=
  pts.map fun p => { p with value := getRadiusValue sizeByArea minSize maxSize p.value }

/-- Model of the array effect of `placeBubbles` on `allDataPoints`
(lines 267-269 and 308): the array is sorted in place descending by slot 2,
and each entry from index 2 on has a zero radius coerced to 1 in place. -/
noncomputable def placeBubblesDataEffect (pts : List Bubble) : List Bubble :=
  match sortDesc pts with
  | s0 :: s1 :: rest => s0 :: s1 :: rest.map coerceRadius
  | l => l

/-- Untyped JavaScript value, used to state what the degenerate single-item
branch of `placeBubbles` actually returns. -/
inductive JVal where
  | null : JVal
  | num : ℝ → JVal
  | arr : List JVal → JVal

/-- Model of the degenerate dispatch of `placeBubbles` (lines 271-282) over
untyped values: the empty sorted array yields `[]`, a single row yields the
flat five-element array `[0, 0, row[0], row[1], row[2]]`; with two or more
rows the main loop runs instead (`none` here, modelled by
`placeBubblesLoop`). -/
def placeBubblesDegenerate (sortedArr : List (List JVal)) : Option JVal :=
  match sortedArr with
  | [] => some (JVal.arr [])
  | [row] => some (JVal.arr [JVal.num 0, JVal.num 0,
      row.getD 0 JVal.null, row.getD 1 JVal.null, row.getD 2 JVal.null])
  | _ => none

/-! Shared helper lemmas. -/

/-- Square root of a square expressed through the sum of squares of sine and
cosine, used to read off center distances of placed bubbles. -/
theorem sqrt_sin_cos_dist (s A : ℝ) (hs : 0 ≤ s) :
    Real.sqrt ((s * Real.sin A) ^ 2 + (-(s * Real.cos A)) ^ 2) = s := by
  have h : (s * Real.sin A) ^ 2 + (-(s * Real.cos A)) ^ 2 = s ^ 2 := by
    linear_combination s ^ 2 * Real.sin_sq_add_cos_sq A
  rw [h, Real.sqrt_sq hs]

/-- Evaluation scheme for `positionBubble`: once the distance, the two
inverse-trigonometric angles and the two corrections are known, the result
is the projected bubble. -/
theorem positionBubble_eval (lastB newO nextB : Bubble) (dist alfa beta gamma delta : ℝ)
    (hdist : Real.sqrt ((lastB.x - newO.x) ^ 2 + (lastB.y - newO.y) ^ 2) = dist)
    (halfa : Real.arccos ((dist ^ 2 + (nextB.r + newO.r) ^ 2 - (nextB.r + lastB.r) ^ 2) /
      (2 * (nextB.r + newO.r) * dist)) = alfa)
    (hbeta : Real.arcsin (|lastB.x - newO.x| / dist) = beta)
    (hgamma : (if lastB.y - newO.y < 0 then (0:ℝ) else Real.pi) = gamma)
    (hdelta : (if (lastB.x - newO.x) * (lastB.y - newO.y) < 0 then (1:ℝ) else -1) = delta) :
    positionBubble lastB newO nextB =
      ⟨newO.x + (newO.r + nextB.r) * Real.sin (gamma + alfa + beta * delta),
       newO.y - (newO.r + nextB.r) * Real.cos (gamma + alfa + beta * delta),
       nextB.r, nextB.seriesIx, nextB.pointIx⟩ := by
  simp only [positionBubble]
  rw [hdist, halfa, hbeta, hgamma, hdelta]

/-! Claim C2: tangency of the bubble returned by `positionBubble` to the
origin bubble. -/

/-- C2: for finite inputs with `lastBubble` and `newOrigin` at distinct
centers (and the data-model invariant of non-negative radii), the bubble
returned by `positionBubble` has its center at Euclidean distance exactly
`newOrigin.r + nextBubble.r` from `newOrigin`'s center. -/
theorem positionBubble_tangent_to_origin (lastBubble newOrigin nextBubble : Bubble)
    (hne : (lastBubble.x, lastBubble.y) ≠ (newOrigin.x, newOrigin.y))
    (ho : 0 ≤ newOrigin.r) (hn : 0 ≤ nextBubble.r) :
    Real.sqrt (((positionBubble lastBubble newOrigin nextBubble).x - newOrigin.x) ^ 2 +
        ((positionBubble lastBubble newOrigin nextBubble).y - newOrigin.y) ^ 2) =
      newOrigin.r + nextBubble.r := by
  unfold positionBubble
  have hsum : (0:ℝ) ≤ newOrigin.r + nextBubble.r := by linarith
  have h := sqrt_sin_cos_dist (newOrigin.r + nextBubble.r)
    ((if lastBubble.y - newOrigin.y < 0 then (0:ℝ) else Real.pi) +
      Real.arccos ((Real.sqrt ((lastBubble.x - newOrigin.x) ^ 2 +
          (lastBubble.y - newOrigin.y) ^ 2) ^ 2 +
        (nextBubble.r + newOrigin.r) ^ 2 - (nextBubble.r + lastBubble.r) ^ 2) /
        (2 * (nextBubble.r + newOrigin.r) *
          Real.sqrt ((lastBubble.x - newOrigin.x) ^ 2 + (lastBubble.y - newOrigin.y) ^ 2))) +
      Real.arcsin (|lastBubble.x - newOrigin.x| /
        Real.sqrt ((lastBubble.x - newOrigin.x) ^ 2 + (lastBubble.y - newOrigin.y) ^ 2)) *
        (if (lastBubble.x - newOrigin.x) * (lastBubble.y - newOrigin.y) < 0 then (1:ℝ) else -1))
    hsum
  convert h using 2 <;> ring

/-- Witness for C2 at the concrete right-triangle input
`last = (0,-3,r4)`, `origin = (0,0,r3)`, `next` of radius 1. -/
theorem positionBubble_tangent_to_origin_witness :
    Real.sqrt (((positionBubble ⟨0, -3, 4, 0, 1⟩ ⟨0, 0, 3, 0, 0⟩ ⟨0, 0, 1, 0, 2⟩).x -
        (Bubble.mk 0 0 3 0 0).x) ^ 2 +
      ((positionBubble ⟨0, -3, 4, 0, 1⟩ ⟨0, 0, 3, 0, 0⟩ ⟨0, 0, 1, 0, 2⟩).y -
        (Bubble.mk 0 0 3 0 0).y) ^ 2) = 4 := by
  have h := positionBubble_tangent_to_origin ⟨0, -3, 4, 0, 1⟩ ⟨0, 0, 3, 0, 0⟩ ⟨0, 0, 1, 0, 2⟩
    (by simp) (by norm_num) (by norm_num)
  exact h.trans (by norm_num)

/-! Claim C7: characterisation of `checkOverlap`. -/

/-- C7: for circles with non-negative radii, `checkOverlap` holds iff the
center distance minus the radius sum is below `-0.001`; exactly tangent
circles are not reported as overlapping. -/
theorem checkOverlap_iff_dist_lt (b1 b2 : Bubble) (h1 : 0 ≤ b1.r) (h2 : 0 ≤ b2.r) :
    (checkOverlap b1 b2 ↔
      Real.sqrt ((b1.x - b2.x) * (b1.x - b2.x) + (b1.y - b2.y) * (b1.y - b2.y)) -
        (b1.r + b2.r) < -0.001) ∧
    (Real.sqrt ((b1.x - b2.x) * (b1.x - b2.x) + (b1.y - b2.y) * (b1.y - b2.y)) =
        b1.r + b2.r → ¬ checkOverlap b1 b2) := by
  unfold checkOverlap
  rw [abs_of_nonneg (by linarith : (0:ℝ) ≤ b1.r + b2.r)]
  exact ⟨Iff.rfl, fun h => by rw [h]; norm_num⟩

/-- Witness for C7: two exactly tangent unit circles at distance 2 are not
overlapping. -/
theorem checkOverlap_iff_dist_lt_witness :
    ¬ checkOverlap ⟨0, 0, 1, 0, 0⟩ ⟨2, 0, 1, 0, 1⟩ := by
  refine (checkOverlap_iff_dist_lt ⟨0, 0, 1, 0, 0⟩ ⟨2, 0, 1, 0, 1⟩ (by norm_num) (by norm_num)).2 ?_
  have h4 : (((0:ℝ) - 2) * ((0:ℝ) - 2) + ((0:ℝ) - 0) * ((0:ℝ) - 0)) = 2 ^ 2 := by norm_num
  show Real.sqrt (((0:ℝ) - 2) * ((0:ℝ) - 2) + ((0:ℝ) - 0) * ((0:ℝ) - 0)) = (1:ℝ) + 1
  rw [h4, Real.sqrt_sq (by norm_num : (0:ℝ) ≤ 2)]
  norm_num

/-! Fold lemmas for the bounding-box computation. -/

/-- A min-fold is bounded by its seed. -/
theorem foldl_min_le_init (g : Bubble → ℝ) (t : List Bubble) (m : ℝ) :
    t.foldl (fun a p => min a (g p)) m ≤ m := by
  induction t generalizing m with
  | nil => simp
  | cons q t ih => exact le_trans (ih _) (min_le_left _ _)

/-- A min-fold is bounded by every folded element. -/
theorem foldl_min_le_mem (g : Bubble → ℝ) (t : List Bubble) (m : ℝ) (p : Bubble)
    (hp : p ∈ t) : t.foldl (fun a p => min a (g p)) m ≤ g p := by
  induction t generalizing m with
  | nil => cases hp
  | cons q t ih =>
    rcases List.mem_cons.1 hp with h | h
    · subst h
      exact le_trans (foldl_min_le_init g t _) (min_le_right _ _)
    · exact ih _ h

/-- A min-fold returns its seed or one of the folded values. -/
theorem foldl_min_attained (g : Bubble → ℝ) (t : List Bubble) (m : ℝ) :
    t.foldl (fun a p => min a (g p)) m = m ∨
      ∃ p ∈ t, t.foldl (fun a p => min a (g p)) m = g p := by
  induction t generalizing m with
  | nil => exact Or.inl rfl
  | cons q t ih =>
    rcases ih (min m (g q)) with h | ⟨p, hp, h⟩
    · rcases min_choice m (g q) with hm | hm
      · exact Or.inl (h.trans hm)
      · exact Or.inr ⟨q, List.mem_cons_self q t, h.trans hm⟩
    · exact Or.inr ⟨p, List.mem_cons_of_mem _ hp, h⟩

/-- A max-fold is bounded below by its seed. -/
theorem le_foldl_max_init (g : Bubble → ℝ) (t : List Bubble) (m : ℝ) :
    m ≤ t.foldl (fun a p => max a (g p)) m := by
  induction t generalizing m with
  | nil => simp
  | cons q t ih => exact le_trans (le_max_left _ _) (ih _)

/-- A max-fold is bounded below by every folded element. -/
theorem le_foldl_max_mem (g : Bubble → ℝ) (t : List Bubble) (m : ℝ) (p : Bubble)
    (hp : p ∈ t) : g p ≤ t.foldl (fun a p => max a (g p)) m := by
  induction t generalizing m with
  | nil => cases hp
  | cons q t ih =>
    rcases List.mem_cons.1 hp with h | h
    · subst h
      exact le_trans (le_max_right _ _) (le_foldl_max_init g t _)
    · exact ih _ h

/-- A max-fold returns its seed or one of the folded values. -/
theorem foldl_max_attained (g : Bubble → ℝ) (t : List Bubble) (m : ℝ) :
    t.foldl (fun a p => max a (g p)) m = m ∨
      ∃ p ∈ t, t.foldl (fun a p => max a (g p)) m = g p := by
  induction t generalizing m with
  | nil => exact Or.inl rfl
  | cons q t ih =>
    rcases ih (max m (g q)) with h | ⟨p, hp, h⟩
    · rcases max_choice m (g q) with hm | hm
      · exact Or.inl (h.trans hm)
      · exact Or.inr ⟨q, List.mem_cons_self q t, h.trans hm⟩
    · exact Or.inr ⟨p, List.mem_cons_of_mem _ hp, h⟩

/-! Claim C3: one pass of `resizeRadius`. -/

/-- C3: on a non-empty position list, `resizeRadius` computes the bounding
box of all circles (attained bounds over `center ± radius`), the scale factor
`min(usableWidth / bboxWidth, usableHeight / bboxHeight)`; when
`|scale - 1| > 1e-10` it requests a repack with every radius (and only the
radius) multiplied by the scale, otherwise it finalises with offsets that
translate the bounding-box center onto the plot-area center. -/
theorem resizeRadius_spec (c : ChartRect) (ps : List Bubble) (hne : ps ≠ []) :
    (∀ b ∈ ps, minXOf ps ≤ b.x - b.r ∧ b.x + b.r ≤ maxXOf ps ∧
      minYOf ps ≤ b.y - b.r ∧ b.y + b.r ≤ maxYOf ps) ∧
    ((∃ b ∈ ps, minXOf ps = b.x - b.r) ∧ (∃ b ∈ ps, maxXOf ps = b.x + b.r) ∧
      (∃ b ∈ ps, minYOf ps = b.y - b.r) ∧ (∃ b ∈ ps, maxYOf ps = b.y + b.r)) ∧
    smallerDimension c ps = min ((c.plotWidth - c.plotLeft) / (maxXOf ps - minXOf ps))
      ((c.plotHeight - c.plotTop) / (maxYOf ps - minYOf ps)) ∧
    (1e-10 < |smallerDimension c ps - 1| →
      resizeRadius c ps =
        Sum.inl (ps.map fun p => { p with r := p.r * smallerDimension c ps })) ∧
    (|smallerDimension c ps - 1| ≤ 1e-10 →
      ∃ dX dY, resizeRadius c ps = Sum.inr (dX, dY) ∧
        minXOf ps + (maxXOf ps - minXOf ps) / 2 + dX = c.plotLeft + c.plotWidth / 2 ∧
        minYOf ps + (maxYOf ps - minYOf ps) / 2 + dY = c.plotTop + c.plotHeight / 2) := by
  obtain ⟨q, t, rfl⟩ : ∃ q t, ps = q :: t := by
    cases ps with
    | nil => exact absurd rfl hne
    | cons q t => exact ⟨q, t, rfl⟩
  refine ⟨?_, ⟨?_, ?_, ?_, ?_⟩, rfl, ?_, ?_⟩
  · intro b hb
    have hx1 : minXOf (q :: t) ≤ b.x - b.r := by
      rcases List.mem_cons.1 hb with h | h
      · subst h; exact foldl_min_le_init (fun p => p.x - p.r) t _
      · exact foldl_min_le_mem (fun p => p.x - p.r) t _ b h
    have hx2 : b.x + b.r ≤ maxXOf (q :: t) := by
      rcases List.mem_cons.1 hb with h | h
      · subst h; exact le_foldl_max_init (fun p => p.x + p.r) t _
      · exact le_foldl_max_mem (fun p => p.x + p.r) t _ b h
    have hy1 : minYOf (q :: t) ≤ b.y - b.r := by
      rcases List.mem_cons.1 hb with h | h
      · subst h; exact foldl_min_le_init (fun p => p.y - p.r) t _
      · exact foldl_min_le_mem (fun p => p.y - p.r) t _ b h
    have hy2 : b.y + b.r ≤ maxYOf (q :: t) := by
      rcases List.mem_cons.1 hb with h | h
      · subst h; exact le_foldl_max_init (fun p => p.y + p.r) t _
      · exact le_foldl_max_mem (fun p => p.y + p.r) t _ b h
    exact ⟨hx1, hx2, hy1, hy2⟩
  · rcases foldl_min_attained (fun p => p.x - p.r) t (q.x - q.r) with h | ⟨p, hp, h⟩
    · exact ⟨q, List.mem_cons_self q t, h⟩
    · exact ⟨p, List.mem_cons_of_mem _ hp, h⟩
  · rcases foldl_max_attained (fun p => p.x + p.r) t (q.x + q.r) with h | ⟨p, hp, h⟩
    · exact ⟨q, List.mem_cons_self q t, h⟩
    · exact ⟨p, List.mem_cons_of_mem _ hp, h⟩
  · rcases foldl_min_attained (fun p => p.y - p.r) t (q.y - q.r) with h | ⟨p, hp, h⟩
    · exact ⟨q, List.mem_cons_self q t, h⟩
    · exact ⟨p, List.mem_cons_of_mem _ hp, h⟩
  · rcases foldl_max_attained (fun p => p.y + p.r) t (q.y + q.r) with h | ⟨p, hp, h⟩
    · exact ⟨q, List.mem_cons_self q t, h⟩
    · exact ⟨p, List.mem_cons_of_mem _ hp, h⟩
  · intro h
    unfold resizeRadius
    rw [if_pos h]
  · intro h
    unfold resizeRadius
    rw [if_neg (not_lt.2 h)]
    refine ⟨_, _, rfl, by ring, by ring⟩

/-- Witness for C3 at a single unit circle in a 4 by 4 plot area. -/
theorem resizeRadius_spec_witness :
    ([(⟨0, 0, 1, 0, 0⟩ : Bubble)] ≠ []) ∧
    (1e-10 < |smallerDimension ⟨0, 0, 4, 4⟩ [⟨0, 0, 1, 0, 0⟩] - 1| →
      resizeRadius ⟨0, 0, 4, 4⟩ [⟨0, 0, 1, 0, 0⟩] =
        Sum.inl (([⟨0, 0, 1, 0, 0⟩] : List Bubble).map fun p =>
          { p with r := p.r * smallerDimension ⟨0, 0, 4, 4⟩ [⟨0, 0, 1, 0, 0⟩] })) := by
  refine ⟨by simp, ?_⟩
  exact (resizeRadius_spec ⟨0, 0, 4, 4⟩ [⟨0, 0, 1, 0, 0⟩] (by simp)).2.2.2.1

/-! Helper form of the non-degenerate branch of the radius computation. -/

/-- Tail of the `getRadius` per-value computation (lines 485-492) for values
at or above `minSize`: normalised position, optional area square root, and
`ceil(minSize + pos * range) / 2`. -/
noncomputable def radiusFormula (sizeByArea : Bool) (minSize maxSize v : ℝ) : ℝ :=
  let pos := if 0 < maxSize - minSize then (v - minSize) / (maxSize - minSize) else 0.5
  let pos2 := if sizeByArea = true ∧ 0 ≤ pos then Real.sqrt pos else pos
  ((⌈minSize + pos2 * (maxSize - minSize)⌉ : ℤ) : ℝ) / 2

/-- Values at or above `minSize` take the `radiusFormula` branch. -/
theorem getRadiusValue_else (sizeByArea : Bool) (minSize maxSize v : ℝ)
    (hv : v ≠ 0) (hle : minSize ≤ v) :
    getRadiusValue sizeByArea minSize maxSize (some v) =
      some (radiusFormula sizeByArea minSize maxSize v) := by
  simp only [getRadiusValue, radiusFormula]
  rw [if_neg hv, if_neg (not_lt.2 hle)]

/-- Values below `minSize` take the `minSize - 1` branch. -/
theorem getRadiusValue_below (sizeByArea : Bool) (minSize maxSize v : ℝ)
    (hv : v ≠ 0) (hlt : v < minSize) :
    getRadiusValue sizeByArea minSize maxSize (some v) = some (minSize - 1) := by
  simp only [getRadiusValue]
  rw [if_neg hv, if_pos hlt]

/-- Monotonicity of `radiusFormula` in the value, on the region at or above
`minSize`, for a non-inverted range. -/
theorem radiusFormula_mono (sizeByArea : Bool) (minSize maxSize v1 v2 : ℝ)
    (hrange : minSize ≤ maxSize) (hle1 : minSize ≤ v1) (h12 : v1 ≤ v2) :
    radiusFormula sizeByArea minSize maxSize v1 ≤
      radiusFormula sizeByArea minSize maxSize v2 := by
  simp only [radiusFormula]
  have hrnn : (0:ℝ) ≤ maxSize - minSize := by linarith
  by_cases hpos : 0 < maxSize - minSize
  · simp only [if_pos hpos]
    have hp1 : (0:ℝ) ≤ (v1 - minSize) / (maxSize - minSize) :=
      div_nonneg (by linarith) hrnn
    have hp12 : (v1 - minSize) / (maxSize - minSize) ≤
        (v2 - minSize) / (maxSize - minSize) :=
      (div_le_div_right hpos).mpr (by linarith)
    have hp2 : (0:ℝ) ≤ (v2 - minSize) / (maxSize - minSize) := le_trans hp1 hp12
    by_cases hsa : sizeByArea = true
    · rw [if_pos ⟨hsa, hp1⟩, if_pos ⟨hsa, hp2⟩]
      have hs : Real.sqrt ((v1 - minSize) / (maxSize - minSize)) ≤
          Real.sqrt ((v2 - minSize) / (maxSize - minSize)) := Real.sqrt_le_sqrt hp12
      have hceil : (⌈minSize + Real.sqrt ((v1 - minSize) / (maxSize - minSize)) *
          (maxSize - minSize)⌉ : ℤ) ≤
          ⌈minSize + Real.sqrt ((v2 - minSize) / (maxSize - minSize)) *
            (maxSize - minSize)⌉ :=
        Int.ceil_le_ceil (by nlinarith)
      have hc : ((⌈minSize + Real.sqrt ((v1 - minSize) / (maxSize - minSize)) *
          (maxSize - minSize)⌉ : ℤ) : ℝ) ≤
          ((⌈minSize + Real.sqrt ((v2 - minSize) / (maxSize - minSize)) *
            (maxSize - minSize)⌉ : ℤ) : ℝ) := by exact_mod_cast hceil
      linarith
    · rw [if_neg (fun hc => hsa hc.1), if_neg (fun hc => hsa hc.1)]
      have hceil : (⌈minSize + (v1 - minSize) / (maxSize - minSize) *
          (maxSize - minSize)⌉ : ℤ) ≤
          ⌈minSize + (v2 - minSize) / (maxSize - minSize) * (maxSize - minSize)⌉ :=
        Int.ceil_le_ceil (by nlinarith)
      have hc : ((⌈minSize + (v1 - minSize) / (maxSize - minSize) *
          (maxSize - minSize)⌉ : ℤ) : ℝ) ≤
          ((⌈minSize + (v2 - minSize) / (maxSize - minSize) *
            (maxSize - minSize)⌉ : ℤ) : ℝ) := by exact_mod_cast hceil
      linarith
  · simp only [if_neg hpos]
    exact le_rfl

/-- Bounds for `radiusFormula` when the value lies between the resolved
sizes. -/
theorem radiusFormula_bounds (sizeByArea : Bool) (minSize maxSize v : ℝ)
    (hrange : minSize ≤ maxSize) (hlo : minSize ≤ v) (hhi : v ≤ maxSize) :
    minSize / 2 ≤ radiusFormula sizeByArea minSize maxSize v ∧
      radiusFormula sizeByArea minSize maxSize v ≤ (maxSize + 1) / 2 := by
  simp only [radiusFormula]
  have hrnn : (0:ℝ) ≤ maxSize - minSize := by linarith
  set P := if 0 < maxSize - minSize then (v - minSize) / (maxSize - minSize) else 0.5
    with hP
  have hP0 : 0 ≤ P := by
    rw [hP]; split_ifs with h
    · exact div_nonneg (by linarith) (le_of_lt h)
    · norm_num
  have hP1 : P ≤ 1 := by
    rw [hP]; split_ifs with h
    · rw [div_le_one h]; linarith
    · norm_num
  set Q := if sizeByArea = true ∧ 0 ≤ P then Real.sqrt P else P with hQ
  have hQ0 : 0 ≤ Q := by
    rw [hQ]; split_ifs
    · exact Real.sqrt_nonneg _
    · exact hP0
  have hQ1 : Q ≤ 1 := by
    rw [hQ]; split_ifs
    · exact Real.sqrt_le_one.mpr hP1
    · exact hP1
  have hin1 : minSize ≤ minSize + Q * (maxSize - minSize) := by nlinarith
  have hin2 : minSize + Q * (maxSize - minSize) ≤ maxSize := by nlinarith
  constructor
  · have h := Int.le_ceil (minSize + Q * (maxSize - minSize))
    linarith
  · have h : ((⌈minSize + Q * (maxSize - minSize)⌉ : ℤ) : ℝ) <
        (minSize + Q * (maxSize - minSize)) + 1 := Int.ceil_lt_add_one _
    linarith

/-! Claim C5: radius monotonicity. -/

/-- C5 counterexample: with `minSize = 10`, `maxSize = 100`, the value 5 is
below the floor and receives radius `10 - 1 = 9`, while the value 10 receives
`ceil(10) / 2 = 5`, so a smaller value gets a strictly larger radius. -/
theorem getRadiusValue_monotone_counterexample :
    ((5:ℝ) < 10) ∧
    getRadiusValue false 10 100 (some 5) = some 9 ∧
    getRadiusValue false 10 100 (some 10) = some 5 ∧
    ¬ ((9:ℝ) ≤ 5) := by
  refine ⟨by norm_num, ?_, ?_, by norm_num⟩
  · rw [getRadiusValue_below false 10 100 5 (by norm_num) (by norm_num)]
    norm_num
  · rw [getRadiusValue_else false 10 100 10 (by norm_num) (by norm_num)]
    simp only [radiusFormula]
    rw [if_pos (by norm_num : (0:ℝ) < 100 - 10)]
    rw [if_neg (by simp : ¬ (false = true ∧ (0:ℝ) ≤ ((10:ℝ) - 10) / (100 - 10)))]
    norm_num

/-- C5 (amended): the radius computed by `getRadius` is monotone in the value
within each sizing region — both values below `minSize`, or both at or above
`minSize` — but not across the boundary between the two regions. -/
theorem getRadiusValue_monotone_regions (sizeByArea : Bool) (minSize maxSize v1 v2 : ℝ)
    (hrange : minSize ≤ maxSize) (h12 : v1 < v2) (hv1 : v1 ≠ 0) (hv2 : v2 ≠ 0) :
    (v2 < minSize →
      getRadiusValue sizeByArea minSize maxSize (some v1) = some (minSize - 1) ∧
      getRadiusValue sizeByArea minSize maxSize (some v2) = some (minSize - 1)) ∧
    (minSize ≤ v1 →
      ∃ r1 r2 : ℝ, getRadiusValue sizeByArea minSize maxSize (some v1) = some r1 ∧
        getRadiusValue sizeByArea minSize maxSize (some v2) = some r2 ∧ r1 ≤ r2) := by
  constructor
  · intro h2
    exact ⟨getRadiusValue_below _ _ _ _ hv1 (lt_trans h12 h2),
      getRadiusValue_below _ _ _ _ hv2 h2⟩
  · intro hle1
    exact ⟨_, _, getRadiusValue_else _ _ _ _ hv1 hle1,
      getRadiusValue_else _ _ _ _ hv2 (le_trans hle1 h12.le),
      radiusFormula_mono sizeByArea minSize maxSize v1 v2 hrange hle1 h12.le⟩

/-- Witness for the amended C5 at `minSize = 10`, `maxSize = 100`,
values 20 and 30. -/
theorem getRadiusValue_monotone_regions_witness :
    ((10:ℝ) ≤ 100) ∧ ((20:ℝ) < 30) ∧
    (((30:ℝ) < 10 →
      getRadiusValue false 10 100 (some 20) = some (10 - 1) ∧
      getRadiusValue false 10 100 (some 30) = some (10 - 1)) ∧
    ((10:ℝ) ≤ 20 →
      ∃ r1 r2 : ℝ, getRadiusValue false 10 100 (some 20) = some r1 ∧
        getRadiusValue false 10 100 (some 30) = some r2 ∧ r1 ≤ r2)) :=
  ⟨by norm_num, by norm_num,
    getRadiusValue_monotone_regions false 10 100 20 30 (by norm_num) (by norm_num)
      (by norm_num) (by norm_num)⟩

/-! Claim C6: range of the computed radius. -/

/-- C6 counterexample: with `minSize = 10`, `maxSize = 100` and value 10, the
computed radius is 5, below the claimed lower bound `minRadius = 10`. -/
theorem getRadiusValue_range_counterexample :
    getRadiusValue false 10 100 (some 10) = some 5 ∧ ¬ ((10:ℝ) ≤ 5) := by
  refine ⟨?_, by norm_num⟩
  rw [getRadiusValue_else false 10 100 10 (by norm_num) (by norm_num)]
  simp only [radiusFormula]
  rw [if_pos (by norm_num : (0:ℝ) < 100 - 10)]
  rw [if_neg (by simp : ¬ (false = true ∧ (0:ℝ) ≤ ((10:ℝ) - 10) / (100 - 10)))]
  norm_num

/-- C6 (amended): for a non-inverted range and a non-null, non-zero value
between the resolved sizes, the computed radius lies in
`[minSize / 2, (maxSize + 1) / 2]` — the sizes act as diameters, the radius
is the halved (ceiled) interpolant, not a value in `[minSize, maxSize]`. -/
theorem getRadiusValue_half_range (sizeByArea : Bool) (minSize maxSize v : ℝ)
    (hrange : minSize ≤ maxSize) (hv : v ≠ 0) (hlo : minSize ≤ v) (hhi : v ≤ maxSize) :
    getRadiusValue sizeByArea minSize maxSize (some v) =
      some (radiusFormula sizeByArea minSize maxSize v) ∧
    minSize / 2 ≤ radiusFormula sizeByArea minSize maxSize v ∧
    radiusFormula sizeByArea minSize maxSize v ≤ (maxSize + 1) / 2 :=
  ⟨getRadiusValue_else _ _ _ _ hv hlo,
    radiusFormula_bounds sizeByArea minSize maxSize v hrange hlo hhi⟩

/-- Witness for the amended C6 at `minSize = 10`, `maxSize = 100`, value 50. -/
theorem getRadiusValue_half_range_witness :
    ((10:ℝ) ≤ 100) ∧ ((50:ℝ) ≠ 0) ∧ ((10:ℝ) ≤ 50) ∧ ((50:ℝ) ≤ 100) ∧
    (getRadiusValue false 10 100 (some 50) =
      some (radiusFormula false 10 100 50) ∧
    (10:ℝ) / 2 ≤ radiusFormula false 10 100 50 ∧
    radiusFormula false 10 100 50 ≤ ((100:ℝ) + 1) / 2) :=
  ⟨by norm_num, by norm_num, by norm_num, by norm_num,
    getRadiusValue_half_range false 10 100 50 (by norm_num) (by norm_num)
      (by norm_num) (by norm_num)⟩

/-! Claim C9: no division by zero in the degenerate or inverted range. -/

/-- C9: when `maxSize ≤ minSize` (zero or inverted radius range) the
normalised position is the constant `0.5` instead of a quotient, and the
computation is defined for every non-null, non-zero value. -/
theorem getRadiusValue_zero_range_safe (sizeByArea : Bool) (minSize maxSize : ℝ)
    (hrange : maxSize ≤ minSize) (v : ℝ) (hv : v ≠ 0) :
    (∃ r : ℝ, getRadiusValue sizeByArea minSize maxSize (some v) = some r) ∧
    (minSize ≤ v →
      getRadiusValue sizeByArea minSize maxSize (some v) =
        some (((⌈minSize + (if sizeByArea = true then Real.sqrt 0.5 else (0.5:ℝ)) *
          (maxSize - minSize)⌉ : ℤ) : ℝ) / 2)) := by
  have hnr : ¬ (0 < maxSize - minSize) := by linarith
  constructor
  · by_cases hlt : v < minSize
    · exact ⟨_, getRadiusValue_below _ _ _ _ hv hlt⟩
    · exact ⟨_, getRadiusValue_else _ _ _ _ hv (not_lt.1 hlt)⟩
  · intro hle
    rw [getRadiusValue_else _ _ _ _ hv hle]
    simp only [radiusFormula]
    rw [if_neg hnr]
    by_cases hsa : sizeByArea = true
    · rw [if_pos ⟨hsa, by norm_num⟩, if_pos hsa]
    · rw [if_neg (fun hc => hsa hc.1), if_neg hsa]

/-- Witness for C9 at `minSize = maxSize = 10` and value 10. -/
theorem getRadiusValue_zero_range_safe_witness :
    ((10:ℝ) ≤ 10) ∧ ((10:ℝ) ≠ 0) ∧
    ((∃ r : ℝ, getRadiusValue false 10 10 (some 10) = some r) ∧
    ((10:ℝ) ≤ 10 →
      getRadiusValue false 10 10 (some 10) =
        some (((⌈(10:ℝ) + (if false = true then Real.sqrt 0.5 else (0.5:ℝ)) *
          ((10:ℝ) - 10)⌉ : ℤ) : ℝ) / 2))) :=
  ⟨le_rfl, by norm_num,
    getRadiusValue_zero_range_safe false 10 10 le_rfl 10 (by norm_num)⟩

/-! Claim C4: degenerate populations. -/

/-- C4 (code bug): the empty population yields the empty array, but the
single-item branch returns the flat five-element array
`[0, 0, null, null, radius]` — the original `x`-slot and `y`-slot `null`s land
in the radius and series-index slots and the radius lands in the point-index
slot — instead of a one-element array holding the circle
`[0, 0, radius, seriesIndex, pointIndex]`. -/
theorem placeBubbles_single_item_flat_array :
    placeBubblesDegenerate [] = some (JVal.arr []) ∧
    placeBubblesDegenerate [[JVal.null, JVal.null, JVal.num 12, JVal.num 0, JVal.num 0]] =
      some (JVal.arr [JVal.num 0, JVal.num 0, JVal.null, JVal.null, JVal.num 12]) ∧
    some (JVal.arr [JVal.num 0, JVal.num 0, JVal.null, JVal.null, JVal.num 12]) ≠
      some (JVal.arr [JVal.arr [JVal.num 0, JVal.num 0, JVal.num 12, JVal.num 0,
        JVal.num 0]]) := by
  refine ⟨rfl, rfl, ?_⟩
  simp

/-! Accessors for the loop state, and small evaluation helpers. -/

/-- Current ring `bubblePos[stage]`. -/
def ringOf (st : PackState) : List Bubble := st.bubblePos.getD st.stage []

/-- Previous ring `bubblePos[stage - 1]`. -/
def prevRingOf (st : PackState) : List Bubble := st.bubblePos.getD (st.stage - 1) []

/-- Candidate position computed at the top of each loop iteration
(lines 311-315): `positionBubble(bubblePos[stage][j], bubblePos[stage-1][k],
sortedArr[i])` after the radius coercion of line 308. -/
noncomputable def candidateOf (st : PackState) (p : Bubble) : Bubble :=
  positionBubble ((ringOf st).getD st.j dummyBubble)
    ((prevRingOf st).getD st.k dummyBubble) (coerceRadius p)

/-- Gamma correction when the last bubble lies strictly below the origin. -/
theorem gamma_ite_neg {a b : ℝ} (h : a - b < 0) :
    (if a - b < 0 then (0:ℝ) else Real.pi) = 0 := if_pos h

/-- Gamma correction when the last bubble does not lie strictly below the
origin. -/
theorem gamma_ite_nonneg {a b : ℝ} (h : ¬ a - b < 0) :
    (if a - b < 0 then (0:ℝ) else Real.pi) = Real.pi := if_neg h

/-- Delta correction in the mixed-sign quadrants. -/
theorem delta_ite_pos {a b : ℝ} (h : a * b < 0) :
    (if a * b < 0 then (1:ℝ) else -1) = 1 := if_pos h

/-- Delta correction in the equal-sign quadrants. -/
theorem delta_ite_neg {a b : ℝ} (h : ¬ a * b < 0) :
    (if a * b < 0 then (1:ℝ) else -1) = -1 := if_neg h

/-- Evaluation of the square root of 9. -/
theorem sqrt_nine : Real.sqrt 9 = 3 := by
  rw [show (9:ℝ) = 3 ^ 2 by norm_num, Real.sqrt_sq (by norm_num : (0:ℝ) ≤ 3)]

/-- Evaluation of `positionBubble` on the 3-4-5 right-triangle input: the
next bubble is projected at angle `pi / 2`, four units to the right of the
origin. -/
theorem positionBubble_345 :
    positionBubble ⟨0, -3, 4, 0, 1⟩ ⟨0, 0, 3, 0, 0⟩ ⟨0, 0, 1, 0, 2⟩ = ⟨4, 0, 1, 0, 2⟩ := by
  have h := positionBubble_eval ⟨0, -3, 4, 0, 1⟩ ⟨0, 0, 3, 0, 0⟩ ⟨0, 0, 1, 0, 2⟩
    3 (Real.pi / 2) 0 0 (-1)
    (by norm_num [sqrt_nine])
    (by norm_num [Real.arccos_zero])
    (by norm_num [Real.arcsin_zero])
    (gamma_ite_neg (by norm_num))
    (delta_ite_neg (by norm_num))
  rw [h]
  norm_num [Real.sin_pi_div_two, Real.cos_pi_div_two]

/-! Claim C8: branch priority in the main loop. -/

/-- C8: the ring-closing check is evaluated first — whenever the candidate
overlaps the first bubble of the current ring, `packStep` starts a new ring
(recomputing the bubble against the ring's first bubble as origin, with `j`
and `k` reset), regardless of any overlap with the next pivot; and the pivot
index advances exactly when the candidate does not overlap the ring's first
bubble, `stage > 1`, a next pivot exists, and the candidate overlaps it. -/
theorem packStep_ring_close_priority (st : PackState) (p : Bubble) :
    (checkOverlap (candidateOf st p) ((ringOf st).getD 0 dummyBubble) →
      packStep st p =
        { bubblePos := st.bubblePos ++
            [[positionBubble ((ringOf st).getD st.j dummyBubble)
              ((ringOf st).getD 0 dummyBubble) (coerceRadius p)]],
          stage := st.stage + 1, j := 0, k := 0 }) ∧
    ((packStep st p).k = st.k + 1 ↔
      ¬ checkOverlap (candidateOf st p) ((ringOf st).getD 0 dummyBubble) ∧
        (1 < st.stage ∧ st.k + 1 < (prevRingOf st).length ∧
          checkOverlap (candidateOf st p) ((prevRingOf st).getD (st.k + 1) dummyBubble))) := by
  simp only [packStep, candidateOf, ringOf, prevRingOf]
  split_ifs with h1 h2
  · refine ⟨fun _ => rfl, ?_⟩
    simp only [h1, not_true_eq_false, false_and, iff_false]
  · exact ⟨fun hc => absurd hc h1, ⟨fun _ => ⟨h1, h2⟩, fun _ => rfl⟩⟩
  · refine ⟨fun hc => absurd hc h1, ?_⟩
    simp only [h1, not_false_eq_true, true_and]
    simp only [h2, iff_false]
    omega

/-- Witness for C8: a concrete state in which the candidate lands exactly on
the first bubble of the current ring, so the ring closes. -/
theorem packStep_ring_close_priority_witness :
    packStep ⟨[[⟨0, 0, 3, 0, 0⟩], [⟨4, 0, 1, 0, 9⟩, ⟨0, -3, 4, 0, 1⟩]], 1, 1, 0⟩ ⟨0, 0, 1, 0, 2⟩ =
      { bubblePos := [[⟨0, 0, 3, 0, 0⟩], [⟨4, 0, 1, 0, 9⟩, ⟨0, -3, 4, 0, 1⟩]] ++
          [[positionBubble ⟨0, -3, 4, 0, 1⟩ ⟨4, 0, 1, 0, 9⟩
            (coerceRadius ⟨0, 0, 1, 0, 2⟩)]],
        stage := 1 + 1, j := 0, k := 0 } := by
  have hco : coerceRadius ⟨0, 0, 1, 0, 2⟩ = (⟨0, 0, 1, 0, 2⟩ : Bubble) := by
    unfold coerceRadius
    rw [if_neg (by norm_num : ¬ ((Bubble.mk 0 0 1 0 2).r = 0))]
  have hcand : candidateOf ⟨[[⟨0, 0, 3, 0, 0⟩], [⟨4, 0, 1, 0, 9⟩, ⟨0, -3, 4, 0, 1⟩]], 1, 1, 0⟩
      ⟨0, 0, 1, 0, 2⟩ = ⟨4, 0, 1, 0, 2⟩ := by
    show positionBubble ⟨0, -3, 4, 0, 1⟩ ⟨0, 0, 3, 0, 0⟩ (coerceRadius ⟨0, 0, 1, 0, 2⟩) =
      ⟨4, 0, 1, 0, 2⟩
    rw [hco]
    exact positionBubble_345
  have hov : checkOverlap (candidateOf
      ⟨[[⟨0, 0, 3, 0, 0⟩], [⟨4, 0, 1, 0, 9⟩, ⟨0, -3, 4, 0, 1⟩]], 1, 1, 0⟩ ⟨0, 0, 1, 0, 2⟩)
      ((ringOf ⟨[[⟨0, 0, 3, 0, 0⟩], [⟨4, 0, 1, 0, 9⟩, ⟨0, -3, 4, 0, 1⟩]], 1, 1, 0⟩).getD 0
        dummyBubble) := by
    rw [hcand]
    show checkOverlap ⟨4, 0, 1, 0, 2⟩ ⟨4, 0, 1, 0, 9⟩
    unfold checkOverlap
    norm_num
  exact (packStep_ring_close_priority
    ⟨[[⟨0, 0, 3, 0, 0⟩], [⟨4, 0, 1, 0, 9⟩, ⟨0, -3, 4, 0, 1⟩]], 1, 1, 0⟩ ⟨0, 0, 1, 0, 2⟩).1 hov

/-! Properties of the in-place sort model. -/

/-- Membership in an insertion. -/
theorem mem_insertDesc {a p : Bubble} : ∀ {l : List Bubble},
    a ∈ insertDesc p l ↔ a = p ∨ a ∈ l := by
  intro l
  induction l with
  | nil => simp [insertDesc]
  | cons q t ih =>
    unfold insertDesc
    split_ifs with h
    · simp [or_comm, or_assoc, List.mem_cons]
    · simp only [List.mem_cons, ih]
      tauto

/-- Insertion is a permutation of consing. -/
theorem insertDesc_perm (p : Bubble) (l : List Bubble) :
    List.Perm (insertDesc p l) (p :: l) := by
  induction l with
  | nil => simp [insertDesc]
  | cons q t ih =>
    unfold insertDesc
    split_ifs with h
    · exact List.Perm.refl _
    · exact (List.Perm.cons q ih).trans (List.Perm.swap p q t)

/-- The insertion fold is a permutation of the appended input. -/
theorem foldl_insertDesc_perm (l : List Bubble) : ∀ acc : List Bubble,
    List.Perm (l.foldl (fun acc p => insertDesc p acc) acc) (l ++ acc) := by
  induction l with
  | nil => intro acc; simp
  | cons p t ih =>
    intro acc
    refine ((ih (insertDesc p acc)).trans ?_)
    refine (List.Perm.append_left t (insertDesc_perm p acc)).trans ?_
    exact List.perm_middle

/-- The sort model permutes its input. -/
theorem sortDesc_perm (l : List Bubble) : List.Perm (sortDesc l) l := by
  have h := foldl_insertDesc_perm l []
  simpa [sortDesc] using h

/-- Insertion preserves descending sortedness by radius. -/
theorem insertDesc_pairwise (p : Bubble) (l : List Bubble)
    (h : l.Pairwise (fun a b => b.r ≤ a.r)) :
    (insertDesc p l).Pairwise (fun a b => b.r ≤ a.r) := by
  induction l with
  | nil => simp [insertDesc]
  | cons q t ih =>
    unfold insertDesc
    rcases List.pairwise_cons.1 h with ⟨hq, ht⟩
    split_ifs with hlt
    · refine List.pairwise_cons.2 ⟨?_, h⟩
      intro b hb
      rcases List.mem_cons.1 hb with rfl | hb
      · exact hlt.le
      · exact le_trans (hq b hb) hlt.le
    · refine List.pairwise_cons.2 ⟨?_, ih ht⟩
      intro b hb
      rcases mem_insertDesc.1 hb with rfl | hb
      · exact not_lt.1 hlt
      · exact hq b hb

/-- The sort model sorts descending by radius. -/
theorem sortDesc_pairwise (l : List Bubble) :
    (sortDesc l).Pairwise (fun a b => b.r ≤ a.r) := by
  have haux : ∀ (l2 acc : List Bubble), acc.Pairwise (fun a b => b.r ≤ a.r) →
      (l2.foldl (fun acc p => insertDesc p acc) acc).Pairwise (fun a b => b.r ≤ a.r) := by
    intro l2
    induction l2 with
    | nil => intro acc h; exact h
    | cons p t ih => intro acc h; exact ih _ (insertDesc_pairwise p acc h)
  exact haux l [] List.Pairwise.nil

/-- Inserting an element not larger than anything in the list appends it. -/
theorem insertDesc_of_forall (p : Bubble) (l : List Bubble)
    (h : ∀ q ∈ l, ¬ q.r < p.r) : insertDesc p l = l ++ [p] := by
  induction l with
  | nil => rfl
  | cons q t ih =>
    unfold insertDesc
    rw [if_neg (h q (List.mem_cons_self q t)),
      ih (fun b hb => h b (List.mem_cons_of_mem _ hb))]
    rfl

/-- The insertion fold on an already descending list appends it. -/
theorem foldl_insertDesc_sorted : ∀ (l acc : List Bubble),
    (∀ p ∈ l, ∀ q ∈ acc, ¬ q.r < p.r) → l.Pairwise (fun a b => b.r ≤ a.r) →
    l.foldl (fun acc p => insertDesc p acc) acc = acc ++ l := by
  intro l
  induction l with
  | nil => intro acc h hp; simp
  | cons p t ih =>
    intro acc h hp
    rcases List.pairwise_cons.1 hp with ⟨hpt, ht⟩
    have h1 : insertDesc p acc = acc ++ [p] :=
      insertDesc_of_forall p acc (h p (List.mem_cons_self p t))
    rw [List.foldl_cons, h1, ih (acc ++ [p]) ?_ ht]
    · simp
    · intro b hb q hq
      rcases List.mem_append.1 hq with hq | hq
      · exact h b (List.mem_cons_of_mem _ hb) q hq
      · have hqp := List.mem_singleton.1 hq
        subst hqp
        exact not_lt.2 (hpt b hb)

/-- Sorting a descending list is the identity. -/
theorem sortDesc_of_pairwise (l : List Bubble)
    (h : l.Pairwise (fun a b => b.r ≤ a.r)) : sortDesc l = l := by
  have haux := foldl_insertDesc_sorted l [] (by intro p hp q hq; cases hq) h
  simpa [sortDesc] using haux

/-- With no zero radius in the array, the data effect of `placeBubbles` on
`allDataPoints` is exactly the in-place descending sort. -/
theorem placeBubblesDataEffect_eq (pts : List Bubble) (hr : ∀ p ∈ pts, p.r ≠ 0) :
    placeBubblesDataEffect pts = sortDesc pts := by
  unfold placeBubblesDataEffect
  cases hs : sortDesc pts with
  | nil => rfl
  | cons s0 t =>
    cases t with
    | nil => rfl
    | cons s1 rest =>
      have hmem : ∀ p ∈ rest, p.r ≠ 0 := by
        intro p hp
        apply hr
        have hmem2 : p ∈ sortDesc pts := by
          rw [hs]
          exact List.mem_cons_of_mem _ (List.mem_cons_of_mem _ hp)
        exact (List.Perm.mem_iff (sortDesc_perm pts)).1 hmem2
      have hmap : rest.map coerceRadius = rest := by
        have hcongr : rest.map coerceRadius = rest.map id :=
          List.map_congr_left (fun p hp => by
            unfold coerceRadius
            rw [if_neg (hmem p hp)]
            rfl)
        rw [hcongr, List.map_id]
      show s0 :: s1 :: rest.map coerceRadius = s0 :: s1 :: rest
      rw [hmap]

/-! Claim C10: in-place mutation of `allDataPoints`. -/

/-- C10: `getRadius` overwrites slot 2 of every entry of `allDataPoints`
with the computed radius (leaving the other slots alone), making distinct
raw-value arrays indistinguishable afterwards, and `placeBubbles` then
reorders that same array into descending radius order (a permutation,
sorted in place). -/
theorem translate_mutates_allDataPoints (sizeByArea : Bool) (minSize maxSize : ℝ)
    (pts : List DataRow) (pts2 : List Bubble) (hr : ∀ p ∈ pts2, p.r ≠ 0) :
    ((getRadius sizeByArea minSize maxSize pts).map (fun p => p.value) =
      pts.map (fun p => getRadiusValue sizeByArea minSize maxSize p.value)) ∧
    ((getRadius sizeByArea minSize maxSize pts).map
        (fun p => (p.x, p.y, p.seriesIx, p.pointIx)) =
      pts.map (fun p => (p.x, p.y, p.seriesIx, p.pointIx))) ∧
    (getRadius false 10 100 [⟨none, none, some 3, 0, 0⟩] =
        getRadius false 10 100 [⟨none, none, some 4, 0, 0⟩] ∧
      (⟨none, none, some 3, 0, 0⟩ : DataRow) ≠ ⟨none, none, some 4, 0, 0⟩) ∧
    (placeBubblesDataEffect pts2 = sortDesc pts2 ∧
      List.Perm (sortDesc pts2) pts2 ∧
      (sortDesc pts2).Pairwise (fun a b => b.r ≤ a.r)) := by
  refine ⟨?_, ?_, ⟨?_, ?_⟩, placeBubblesDataEffect_eq pts2 hr, sortDesc_perm pts2,
    sortDesc_pairwise pts2⟩
  · simp [getRadius, List.map_map, Function.comp]
  · simp [getRadius, List.map_map, Function.comp]
  · unfold getRadius
    simp only [List.map_cons, List.map_nil]
    rw [getRadiusValue_below false 10 100 3 (by norm_num) (by norm_num),
      getRadiusValue_below false 10 100 4 (by norm_num) (by norm_num)]
  · intro hcontra
    have h34 := congrArg DataRow.value hcontra
    simp at h34

/-- Witness for C10 at a one-row value array and a one-bubble position
array. -/
theorem translate_mutates_allDataPoints_witness :
    (∀ p ∈ ([⟨0, 0, 2, 0, 0⟩] : List Bubble), p.r ≠ 0) ∧
    (((getRadius false 10 100 [⟨none, none, some 50, 0, 0⟩]).map (fun p => p.value) =
      [(⟨none, none, some 50, 0, 0⟩ : DataRow)].map
        (fun p => getRadiusValue false 10 100 p.value)) ∧
    ((getRadius false 10 100 [⟨none, none, some 50, 0, 0⟩]).map
        (fun p => (p.x, p.y, p.seriesIx, p.pointIx)) =
      [(⟨none, none, some 50, 0, 0⟩ : DataRow)].map
        (fun p => (p.x, p.y, p.seriesIx, p.pointIx))) ∧
    (getRadius false 10 100 [⟨none, none, some 3, 0, 0⟩] =
        getRadius false 10 100 [⟨none, none, some 4, 0, 0⟩] ∧
      (⟨none, none, some 3, 0, 0⟩ : DataRow) ≠ ⟨none, none, some 4, 0, 0⟩) ∧
    (placeBubblesDataEffect [⟨0, 0, 2, 0, 0⟩] = sortDesc [⟨0, 0, 2, 0, 0⟩] ∧
      List.Perm (sortDesc [⟨0, 0, 2, 0, 0⟩]) [⟨0, 0, 2, 0, 0⟩] ∧
      (sortDesc [⟨0, 0, 2, 0, 0⟩]).Pairwise (fun a b => b.r ≤ a.r))) := by
  have hr : ∀ p ∈ ([⟨0, 0, 2, 0, 0⟩] : List Bubble), p.r ≠ 0 := by
    intro p hp
    rw [List.mem_singleton.1 hp]
    norm_num
  exact ⟨hr, translate_mutates_allDataPoints false 10 100
    [⟨none, none, some 50, 0, 0⟩] [⟨0, 0, 2, 0, 0⟩] hr⟩

/-! Ring-shape invariant of the main loop, for the amended C1 statement. -/

/-- Setting ring `n ≥ 1` to its own content plus a suffix preserves the
leading shape of the ring array. -/
theorem set_getD_shape (b0r : List Bubble) (r1h : Bubble) (r1t : List Bubble)
    (more : List (List Bubble)) (n : ℕ) (hn : 1 ≤ n) (s : List Bubble) :
    ∃ t' more', (b0r :: (r1h :: r1t) :: more).set n
        (((b0r :: (r1h :: r1t) :: more).getD n []) ++ s) =
      b0r :: (r1h :: t') :: more' := by
  cases n with
  | zero => omega
  | succ m =>
    cases m with
    | zero => exact ⟨r1t ++ s, more, by simp⟩
    | succ m2 =>
      refine ⟨r1t, more.set m2 ((more.getD m2 []) ++ s), ?_⟩
      simp [List.getD]

/-- One loop step preserves ring 0, the head of ring 1, and `1 ≤ stage`. -/
theorem packStep_shape (st : PackState) (p : Bubble) (b0r : List Bubble) (r1h : Bubble)
    (r1t : List Bubble) (more : List (List Bubble))
    (hshape : st.bubblePos = b0r :: (r1h :: r1t) :: more) (hstage : 1 ≤ st.stage) :
    (∃ t' more', (packStep st p).bubblePos = b0r :: (r1h :: t') :: more') ∧
      1 ≤ (packStep st p).stage := by
  simp only [packStep]
  split_ifs with h1 h2
  · refine ⟨⟨r1t, more ++ [[positionBubble ((st.bubblePos.getD st.stage []).getD st.j
        dummyBubble) ((st.bubblePos.getD st.stage []).getD 0 dummyBubble)
        (coerceRadius p)]], ?_⟩, by simp⟩
    show st.bubblePos ++ [[positionBubble ((st.bubblePos.getD st.stage []).getD st.j
        dummyBubble) ((st.bubblePos.getD st.stage []).getD 0 dummyBubble)
        (coerceRadius p)]] = _
    rw [hshape]
    rfl
  · constructor
    · show ∃ t' more', st.bubblePos.set st.stage ((st.bubblePos.getD st.stage []) ++
        [positionBubble ((st.bubblePos.getD st.stage []).getD st.j dummyBubble)
          ((st.bubblePos.getD (st.stage - 1) []).getD (st.k + 1) dummyBubble)
          (coerceRadius p)]) = b0r :: (r1h :: t') :: more'
      rw [hshape]
      exact set_getD_shape b0r r1h r1t more st.stage hstage _
    · exact hstage
  · constructor
    · show ∃ t' more', st.bubblePos.set st.stage ((st.bubblePos.getD st.stage []) ++
        [positionBubble ((st.bubblePos.getD st.stage []).getD st.j dummyBubble)
          ((st.bubblePos.getD (st.stage - 1) []).getD st.k dummyBubble)
          (coerceRadius p)]) = b0r :: (r1h :: t') :: more'
      rw [hshape]
      exact set_getD_shape b0r r1h r1t more st.stage hstage _
    · exact hstage

/-- The whole loop preserves ring 0 and the head of ring 1. -/
theorem foldl_packStep_shape (rest : List Bubble) : ∀ (st : PackState) (b0r : List Bubble)
    (r1h : Bubble), (∃ t more, st.bubblePos = b0r :: (r1h :: t) :: more) → 1 ≤ st.stage →
    ∃ t more, (rest.foldl packStep st).bubblePos = b0r :: (r1h :: t) :: more := by
  induction rest with
  | nil => intro st b0r r1h h _; exact h
  | cons p t ih =>
    intro st b0r r1h hsh hs
    obtain ⟨t0, more0, hshape⟩ := hsh
    have h := packStep_shape st p b0r r1h t0 more0 hshape hs
    exact ih (packStep st p) b0r r1h h.1 h.2

/-- C1 (amended): the universal no-overlap invariant fails (see the
counterexample), but the pair the algorithm fixes by construction does hold:
in every layout produced from at least two sorted points, the two seed
circles remain the first two entries of the flattened positions and are
exactly tangent, hence not overlapping. -/
theorem rawPositions_seed_pair (pts : List Bubble) (s0 s1 : Bubble) (rest : List Bubble)
    (hs : sortDesc pts = s0 :: s1 :: rest) :
    (∃ t more, rawPositions pts =
      ⟨0, 0, s0.r, s0.seriesIx, s0.pointIx⟩ ::
        ⟨0, 0 - s1.r - s0.r, s1.r, s1.seriesIx, s1.pointIx⟩ :: (t ++ more)) ∧
    ¬ checkOverlap ⟨0, 0, s0.r, s0.seriesIx, s0.pointIx⟩
      ⟨0, 0 - s1.r - s0.r, s1.r, s1.seriesIx, s1.pointIx⟩ := by
  constructor
  · unfold rawPositions placeBubblesLoop
    rw [hs]
    have h := foldl_packStep_shape rest (initState s0 s1)
      [⟨0, 0, s0.r, s0.seriesIx, s0.pointIx⟩]
      ⟨0, 0 - s1.r - s0.r, s1.r, s1.seriesIx, s1.pointIx⟩
      ⟨[], [], rfl⟩ (le_refl 1)
    obtain ⟨t, more, hsh⟩ := h
    rw [hsh]
    exact ⟨t, more.flatten, by simp⟩
  · unfold checkOverlap
    have hx : ((0:ℝ) - 0) * (0 - 0) +
        ((0:ℝ) - (0 - s1.r - s0.r)) * (0 - (0 - s1.r - s0.r)) = (s0.r + s1.r) ^ 2 := by
      ring
    show ¬ (Real.sqrt (((0:ℝ) - 0) * (0 - 0) +
        ((0:ℝ) - (0 - s1.r - s0.r)) * (0 - (0 - s1.r - s0.r))) - |s0.r + s1.r| < -0.001)
    rw [hx, Real.sqrt_sq_eq_abs]
    norm_num

/-- Witness for the amended C1 on a two-point population with radii 2 and 1. -/
theorem rawPositions_seed_pair_witness :
    sortDesc [⟨0, 0, 2, 0, 0⟩, ⟨0, 0, 1, 0, 1⟩] =
      (⟨0, 0, 2, 0, 0⟩ : Bubble) :: (⟨0, 0, 1, 0, 1⟩ : Bubble) :: [] ∧
    ((∃ t more, rawPositions [⟨0, 0, 2, 0, 0⟩, ⟨0, 0, 1, 0, 1⟩] =
      ⟨0, 0, (Bubble.mk 0 0 2 0 0).r, (Bubble.mk 0 0 2 0 0).seriesIx,
        (Bubble.mk 0 0 2 0 0).pointIx⟩ ::
        ⟨0, 0 - (Bubble.mk 0 0 1 0 1).r - (Bubble.mk 0 0 2 0 0).r, (Bubble.mk 0 0 1 0 1).r,
          (Bubble.mk 0 0 1 0 1).seriesIx, (Bubble.mk 0 0 1 0 1).pointIx⟩ :: (t ++ more)) ∧
    ¬ checkOverlap ⟨0, 0, (Bubble.mk 0 0 2 0 0).r, (Bubble.mk 0 0 2 0 0).seriesIx,
        (Bubble.mk 0 0 2 0 0).pointIx⟩
      ⟨0, 0 - (Bubble.mk 0 0 1 0 1).r - (Bubble.mk 0 0 2 0 0).r, (Bubble.mk 0 0 1 0 1).r,
        (Bubble.mk 0 0 1 0 1).seriesIx, (Bubble.mk 0 0 1 0 1).pointIx⟩) := by
  have hsorted : List.Pairwise (fun a b : Bubble => b.r ≤ a.r)
      [⟨0, 0, 2, 0, 0⟩, ⟨0, 0, 1, 0, 1⟩] := by
    refine List.pairwise_cons.2 ⟨?_, List.pairwise_singleton _ _⟩
    intro b hb
    rw [List.mem_singleton.1 hb]
    norm_num
  have hs := sortDesc_of_pairwise _ hsorted
  exact ⟨hs, rawPositions_seed_pair [⟨0, 0, 2, 0, 0⟩, ⟨0, 0, 1, 0, 1⟩]
    ⟨0, 0, 2, 0, 0⟩ ⟨0, 0, 1, 0, 1⟩ [] hs⟩

/-! Concrete counterexample layout for C1: a core of radius `d - 1` with
`d = sqrt (4 + 2 sqrt 2)` and eight unit bubbles.  Ring 1 grows by exact
45-degree steps; when the last bubble sits exactly to the left of the origin
(`dx < 0`, `dy = 0`) the quadrant corrections of `positionBubble` yield the
base angle `pi/2` instead of `3 pi/2`, so the eighth unit bubble is placed on
top of the fourth.  All angles stay on the `pi/4` grid, so the whole run
evaluates exactly. -/

/-- Distance from the core center to the ring-1 centers. -/
noncomputable def cxD : ℝ := Real.sqrt (4 + 2 * Real.sqrt 2)

/-- Coordinate of the diagonal ring-1 centers, `d sqrt 2 / 2`. -/
noncomputable def cxE : ℝ := cxD * Real.sqrt 2 / 2

/-- Square of `sqrt 2`. -/
theorem cx_s2_sq : Real.sqrt 2 * Real.sqrt 2 = 2 := Real.mul_self_sqrt (by norm_num)

/-- Lower bound for `sqrt 2`. -/
theorem cx_s2_gt1 : 1 < Real.sqrt 2 := by
  nlinarith [cx_s2_sq, Real.sqrt_nonneg 2]

/-- Upper bound for `sqrt 2`. -/
theorem cx_s2_lt : Real.sqrt 2 < 3 / 2 := by
  nlinarith [cx_s2_sq, Real.sqrt_nonneg 2]

/-- Square of the ring distance. -/
theorem cxD_sq : cxD * cxD = 4 + 2 * Real.sqrt 2 := by
  unfold cxD
  exact Real.mul_self_sqrt (by positivity)

/-- The ring distance is positive. -/
theorem cxD_pos : 0 < cxD := by
  unfold cxD
  apply Real.sqrt_pos.2
  positivity

/-- The ring distance is at least 2. -/
theorem cxD_ge2 : 2 ≤ cxD := by
  nlinarith [cxD_sq, cxD_pos, Real.sqrt_nonneg 2]

/-- The ring distance is less than 3. -/
theorem cxD_lt3 : cxD < 3 := by
  nlinarith [cxD_sq, cxD_pos, cx_s2_lt, Real.sqrt_nonneg 2]

/-- Square of the diagonal coordinate. -/
theorem cxE_sq : cxE * cxE = 2 + Real.sqrt 2 := by
  have h : cxE * cxE = cxD * cxD * (Real.sqrt 2 * Real.sqrt 2) / 4 := by
    unfold cxE; ring
  rw [h, cxD_sq, cx_s2_sq]
  ring

/-- Product of the two coordinates. -/
theorem cxDE : cxD * cxE = 2 * Real.sqrt 2 + 2 := by
  have h : cxD * cxE = cxD * cxD * Real.sqrt 2 / 2 := by unfold cxE; ring
  rw [h, cxD_sq]
  linear_combination cx_s2_sq

/-- The diagonal coordinate is positive. -/
theorem cxE_pos : 0 < cxE := by
  unfold cxE
  have := cx_s2_gt1
  nlinarith [cxD_pos]

/-- The diagonal coordinate is below the ring distance. -/
theorem cxE_lt_cxD : cxE < cxD := by
  unfold cxE
  nlinarith [cxD_pos, cx_s2_lt]

/-- The nine input rows of the counterexample: the core value and eight unit
radii (slots `[x, y, radius, seriesIndex, pointIndex]`, x and y unused). -/
noncomputable def cxRows : List Bubble :=
  [⟨0, 0, cxD - 1, 0, 0⟩, ⟨0, 0, 1, 0, 1⟩, ⟨0, 0, 1, 0, 2⟩, ⟨0, 0, 1, 0, 3⟩,
   ⟨0, 0, 1, 0, 4⟩, ⟨0, 0, 1, 0, 5⟩, ⟨0, 0, 1, 0, 6⟩, ⟨0, 0, 1, 0, 7⟩, ⟨0, 0, 1, 0, 8⟩]

/-- Core bubble (ring 0). -/
noncomputable def cxB0 : Bubble := ⟨0, 0, cxD - 1, 0, 0⟩

/-- First ring-1 bubble, stacked above the core. -/
noncomputable def cxB1 : Bubble := ⟨0, -cxD, 1, 0, 1⟩

/-- Ring-1 bubble at 45 degrees. -/
noncomputable def cxC2 : Bubble := ⟨cxE, -cxE, 1, 0, 2⟩

/-- Ring-1 bubble at 90 degrees. -/
noncomputable def cxC3 : Bubble := ⟨cxD, 0, 1, 0, 3⟩

/-- Ring-1 bubble at 135 degrees. -/
noncomputable def cxC4 : Bubble := ⟨cxE, cxE, 1, 0, 4⟩

/-- Ring-1 bubble at 180 degrees. -/
noncomputable def cxC5 : Bubble := ⟨0, cxD, 1, 0, 5⟩

/-- Ring-1 bubble at 225 degrees. -/
noncomputable def cxC6 : Bubble := ⟨-cxE, cxE, 1, 0, 6⟩

/-- Ring-1 bubble at 270 degrees. -/
noncomputable def cxC7 : Bubble := ⟨-cxD, 0, 1, 0, 7⟩

/-- The misplaced eighth unit bubble: it coincides with `cxC4`. -/
noncomputable def cxC8 : Bubble := ⟨cxE, cxE, 1, 0, 8⟩

/-- The flattened layout the loop produces on `cxRows`. -/
noncomputable def cxLayout : List Bubble :=
  [cxB0, cxB1, cxC2, cxC3, cxC4, cxC5, cxC6, cxC7, cxC8]

/-- Arccos value at `sqrt 2 / 2`. -/
theorem arccos_sqrt2_half : Real.arccos (Real.sqrt 2 / 2) = Real.pi / 4 := by
  rw [← Real.cos_pi_div_four]
  exact Real.arccos_cos (by positivity) (by linarith [Real.pi_pos])

/-- Arcsin value at `sqrt 2 / 2`. -/
theorem arcsin_sqrt2_half : Real.arcsin (Real.sqrt 2 / 2) = Real.pi / 4 := by
  rw [← Real.sin_pi_div_four]
  exact Real.arcsin_sin (by linarith [Real.pi_pos]) (by linarith [Real.pi_pos])

/-- The law-of-cosines angle is `pi / 4` at every ring-1 step of the
counterexample: the argument is exactly `sqrt 2 / 2`. -/
theorem cx_alfa : Real.arccos ((cxD ^ 2 + (1 + (cxD - 1)) ^ 2 - (1 + 1) ^ 2) /
    (2 * (1 + (cxD - 1)) * cxD)) = Real.pi / 4 := by
  have harg : (cxD ^ 2 + (1 + (cxD - 1)) ^ 2 - (1 + 1) ^ 2) /
      (2 * (1 + (cxD - 1)) * cxD) = Real.sqrt 2 / 2 := by
    rw [div_eq_div_iff (by nlinarith [cxD_pos]) (by norm_num : (2:ℝ) ≠ 0)]
    linear_combination (4 - 2 * Real.sqrt 2) * cxD_sq - 4 * cx_s2_sq
  rw [harg]
  exact arccos_sqrt2_half

/-- The law-of-sines angle for a diagonal last bubble, `|cxE| / cxD`. -/
theorem cx_beta_e : Real.arcsin (|cxE - 0| / cxD) = Real.pi / 4 := by
  rw [sub_zero, abs_of_pos cxE_pos,
    show cxE / cxD = Real.sqrt 2 / 2 by
      unfold cxE
      field_simp [ne_of_gt cxD_pos]
      ring]
  exact arcsin_sqrt2_half

/-- The law-of-sines angle for a diagonal last bubble on the left,
`|-cxE| / cxD`. -/
theorem cx_beta_ne : Real.arcsin (|-cxE - 0| / cxD) = Real.pi / 4 := by
  rw [sub_zero, abs_neg, abs_of_pos cxE_pos,
    show cxE / cxD = Real.sqrt 2 / 2 by
      unfold cxE
      field_simp [ne_of_gt cxD_pos]
      ring]
  exact arcsin_sqrt2_half

/-- The law-of-sines angle for a last bubble exactly to the right,
`|cxD| / cxD = 1`. -/
theorem cx_beta_d : Real.arcsin (|cxD - 0| / cxD) = Real.pi / 2 := by
  rw [sub_zero, abs_of_pos cxD_pos, div_self (ne_of_gt cxD_pos)]
  exact Real.arcsin_one

/-- The law-of-sines angle for a last bubble exactly to the left,
`|-cxD| / cxD = 1`. -/
theorem cx_beta_nd : Real.arcsin (|-cxD - 0| / cxD) = Real.pi / 2 := by
  rw [sub_zero, abs_neg, abs_of_pos cxD_pos, div_self (ne_of_gt cxD_pos)]
  exact Real.arcsin_one

/-- No overlap with a unit pair once the squared center distance is at
least 4. -/
theorem not_overlap_of_sq_ge (X : ℝ) (hX : 4 ≤ X) :
    ¬ (Real.sqrt X - |(1:ℝ) + 1| < -0.001) := by
  have h2 : (2:ℝ) ≤ Real.sqrt X := by
    rw [show (2:ℝ) = Real.sqrt 4 by
      rw [show (4:ℝ) = 2 ^ 2 by norm_num, Real.sqrt_sq (by norm_num : (0:ℝ) ≤ 2)]]
    exact Real.sqrt_le_sqrt hX
  rw [show |(1:ℝ) + 1| = 2 by norm_num]
  linarith

/-- A min-fold stays above any common lower bound. -/
theorem le_foldl_min (g : Bubble → ℝ) (k : ℝ) : ∀ (t : List Bubble) (m : ℝ), k ≤ m →
    (∀ p ∈ t, k ≤ g p) → k ≤ t.foldl (fun a p => min a (g p)) m := by
  intro t
  induction t with
  | nil => intro m hm _; exact hm
  | cons q tl ih =>
    intro m hm h
    exact ih _ (le_min hm (h q (List.mem_cons_self q tl)))
      (fun p hp => h p (List.mem_cons_of_mem _ hp))

/-- A max-fold stays below any common upper bound. -/
theorem foldl_max_le (g : Bubble → ℝ) (k : ℝ) : ∀ (t : List Bubble) (m : ℝ), m ≤ k →
    (∀ p ∈ t, g p ≤ k) → t.foldl (fun a p => max a (g p)) m ≤ k := by
  intro t
  induction t with
  | nil => intro m hm _; exact hm
  | cons q tl ih =>
    intro m hm h
    exact ih _ (max_le hm (h q (List.mem_cons_self q tl)))
      (fun p hp => h p (List.mem_cons_of_mem _ hp))

/-- Step 2 of the counterexample: the third bubble lands at 45 degrees. -/
theorem cx_pb2 : positionBubble cxB1 cxB0 ⟨0, 0, 1, 0, 2⟩ = cxC2 := by
  have h := positionBubble_eval cxB1 cxB0 ⟨0, 0, 1, 0, 2⟩ cxD (Real.pi / 4) 0 0 (-1)
    (by simp only [cxB1, cxB0]
        rw [show ((0:ℝ) - 0) ^ 2 + (-cxD - 0) ^ 2 = cxD ^ 2 by ring]
        exact Real.sqrt_sq cxD_pos.le)
    (by simp only [cxB1, cxB0]
        exact cx_alfa)
    (by simp only [cxB1, cxB0]
        norm_num [Real.arcsin_zero])
    (gamma_ite_neg (by simp only [cxB1, cxB0]; linarith [cxD_pos]))
    (delta_ite_neg (by simp only [cxB1, cxB0]; norm_num))
  rw [h, show (0:ℝ) + Real.pi / 4 + 0 * (-1) = Real.pi / 4 by ring,
    Real.sin_pi_div_four, Real.cos_pi_div_four]
  simp only [cxB0, cxC2, cxE, Bubble.mk.injEq]
  exact ⟨by ring, by ring, trivial, trivial, trivial⟩

/-- Step 3: the fourth bubble lands at 90 degrees. -/
theorem cx_pb3 : positionBubble cxC2 cxB0 ⟨0, 0, 1, 0, 3⟩ = cxC3 := by
  have h := positionBubble_eval cxC2 cxB0 ⟨0, 0, 1, 0, 3⟩ cxD (Real.pi / 4)
    (Real.pi / 4) 0 1
    (by simp only [cxC2, cxB0]
        rw [show (cxE - 0) ^ 2 + (-cxE - 0) ^ 2 = cxD ^ 2 by
          linear_combination 2 * cxE_sq - cxD_sq]
        exact Real.sqrt_sq cxD_pos.le)
    (by simp only [cxC2, cxB0]
        exact cx_alfa)
    (by simp only [cxC2, cxB0]
        exact cx_beta_e)
    (gamma_ite_neg (by simp only [cxC2, cxB0]; linarith [cxE_pos]))
    (delta_ite_pos (by simp only [cxC2, cxB0]; nlinarith [cxE_pos]))
  rw [h, show (0:ℝ) + Real.pi / 4 + Real.pi / 4 * 1 = Real.pi / 2 by ring,
    Real.sin_pi_div_two, Real.cos_pi_div_two]
  simp only [cxB0, cxC3, Bubble.mk.injEq]
  exact ⟨by ring, by ring, trivial, trivial, trivial⟩

/-- Step 4: the fifth bubble lands at 135 degrees. -/
theorem cx_pb4 : positionBubble cxC3 cxB0 ⟨0, 0, 1, 0, 4⟩ = cxC4 := by
  have h := positionBubble_eval cxC3 cxB0 ⟨0, 0, 1, 0, 4⟩ cxD (Real.pi / 4)
    (Real.pi / 2) Real.pi (-1)
    (by simp only [cxC3, cxB0]
        rw [show (cxD - 0) ^ 2 + ((0:ℝ) - 0) ^ 2 = cxD ^ 2 by ring]
        exact Real.sqrt_sq cxD_pos.le)
    (by simp only [cxC3, cxB0]
        exact cx_alfa)
    (by simp only [cxC3, cxB0]
        exact cx_beta_d)
    (gamma_ite_nonneg (by simp only [cxC3, cxB0]; norm_num))
    (delta_ite_neg (by simp only [cxC3, cxB0]; norm_num))
  rw [h, show Real.pi + Real.pi / 4 + Real.pi / 2 * (-1) = Real.pi - Real.pi / 4 by ring,
    Real.sin_pi_sub, Real.cos_pi_sub, Real.sin_pi_div_four, Real.cos_pi_div_four]
  simp only [cxB0, cxC4, cxE, Bubble.mk.injEq]
  exact ⟨by ring, by ring, trivial, trivial, trivial⟩

/-- Step 5: the sixth bubble lands at 180 degrees. -/
theorem cx_pb5 : positionBubble cxC4 cxB0 ⟨0, 0, 1, 0, 5⟩ = cxC5 := by
  have h := positionBubble_eval cxC4 cxB0 ⟨0, 0, 1, 0, 5⟩ cxD (Real.pi / 4)
    (Real.pi / 4) Real.pi (-1)
    (by simp only [cxC4, cxB0]
        rw [show (cxE - 0) ^ 2 + (cxE - 0) ^ 2 = cxD ^ 2 by
          linear_combination 2 * cxE_sq - cxD_sq]
        exact Real.sqrt_sq cxD_pos.le)
    (by simp only [cxC4, cxB0]
        exact cx_alfa)
    (by simp only [cxC4, cxB0]
        exact cx_beta_e)
    (gamma_ite_nonneg (not_lt.2 (by simp only [cxC4, cxB0]; linarith [cxE_pos])))
    (delta_ite_neg (by simp only [cxC4, cxB0]; push_neg; nlinarith [cxE_pos]))
  rw [h, show Real.pi + Real.pi / 4 + Real.pi / 4 * (-1) = Real.pi by ring,
    Real.sin_pi, Real.cos_pi]
  simp only [cxB0, cxC5, Bubble.mk.injEq]
  exact ⟨by ring, by ring, trivial, trivial, trivial⟩

/-- Step 6: the seventh bubble lands at 225 degrees. -/
theorem cx_pb6 : positionBubble cxC5 cxB0 ⟨0, 0, 1, 0, 6⟩ = cxC6 := by
  have h := positionBubble_eval cxC5 cxB0 ⟨0, 0, 1, 0, 6⟩ cxD (Real.pi / 4) 0 Real.pi (-1)
    (by simp only [cxC5, cxB0]
        rw [show ((0:ℝ) - 0) ^ 2 + (cxD - 0) ^ 2 = cxD ^ 2 by ring]
        exact Real.sqrt_sq cxD_pos.le)
    (by simp only [cxC5, cxB0]
        exact cx_alfa)
    (by simp only [cxC5, cxB0]
        norm_num [Real.arcsin_zero])
    (gamma_ite_nonneg (not_lt.2 (by simp only [cxC5, cxB0]; linarith [cxD_pos])))
    (delta_ite_neg (by simp only [cxC5, cxB0]; norm_num))
  rw [h, show Real.pi + Real.pi / 4 + 0 * (-1) = Real.pi + Real.pi / 4 by ring,
    Real.sin_add, Real.cos_add, Real.sin_pi, Real.cos_pi,
    Real.sin_pi_div_four, Real.cos_pi_div_four]
  simp only [cxB0, cxC6, cxE, Bubble.mk.injEq]
  exact ⟨by ring, by ring, trivial, trivial, trivial⟩

/-- Step 7: the eighth bubble lands at 270 degrees, exactly to the left of
the core. -/
theorem cx_pb7 : positionBubble cxC6 cxB0 ⟨0, 0, 1, 0, 7⟩ = cxC7 := by
  have h := positionBubble_eval cxC6 cxB0 ⟨0, 0, 1, 0, 7⟩ cxD (Real.pi / 4)
    (Real.pi / 4) Real.pi 1
    (by simp only [cxC6, cxB0]
        rw [show (-cxE - 0) ^ 2 + (cxE - 0) ^ 2 = cxD ^ 2 by
          linear_combination 2 * cxE_sq - cxD_sq]
        exact Real.sqrt_sq cxD_pos.le)
    (by simp only [cxC6, cxB0]
        exact cx_alfa)
    (by simp only [cxC6, cxB0]
        exact cx_beta_ne)
    (gamma_ite_nonneg (not_lt.2 (by simp only [cxC6, cxB0]; linarith [cxE_pos])))
    (delta_ite_pos (by simp only [cxC6, cxB0]; nlinarith [cxE_pos]))
  rw [h, show Real.pi + Real.pi / 4 + Real.pi / 4 * 1 = Real.pi + Real.pi / 2 by ring,
    Real.sin_add, Real.cos_add, Real.sin_pi, Real.cos_pi,
    Real.sin_pi_div_two, Real.cos_pi_div_two]
  simp only [cxB0, cxC7, Bubble.mk.injEq]
  exact ⟨by ring, by ring, trivial, trivial, trivial⟩

/-- Step 8, the quadrant-correction failure: with the last bubble exactly to
the left of the origin (`dx < 0`, `dy = 0`), gamma is `pi` and
`beta * delta = -pi/2`, so the base angle comes out as `pi/2` instead of
`3 pi/2` and the ninth bubble is placed at 135 degrees — on top of `cxC4`. -/
theorem cx_pb8 : positionBubble cxC7 cxB0 ⟨0, 0, 1, 0, 8⟩ = cxC8 := by
  have h := positionBubble_eval cxC7 cxB0 ⟨0, 0, 1, 0, 8⟩ cxD (Real.pi / 4)
    (Real.pi / 2) Real.pi (-1)
    (by simp only [cxC7, cxB0]
        rw [show (-cxD - 0) ^ 2 + ((0:ℝ) - 0) ^ 2 = cxD ^ 2 by ring]
        exact Real.sqrt_sq cxD_pos.le)
    (by simp only [cxC7, cxB0]
        exact cx_alfa)
    (by simp only [cxC7, cxB0]
        exact cx_beta_nd)
    (gamma_ite_nonneg (by simp only [cxC7, cxB0]; norm_num))
    (delta_ite_neg (by simp only [cxC7, cxB0]; norm_num))
  rw [h, show Real.pi + Real.pi / 4 + Real.pi / 2 * (-1) = Real.pi - Real.pi / 4 by ring,
    Real.sin_pi_sub, Real.cos_pi_sub, Real.sin_pi_div_four, Real.cos_pi_div_four]
  simp only [cxB0, cxC8, cxE, Bubble.mk.injEq]
  exact ⟨by ring, by ring, trivial, trivial, trivial⟩

/-- The 45-degree bubble is exactly tangent to the first ring bubble. -/
theorem cx_ov2 : ¬ checkOverlap cxC2 cxB1 := by
  unfold checkOverlap
  simp only [cxC2, cxB1]
  rw [show (cxE - 0) * (cxE - 0) + (-cxE - -cxD) * (-cxE - -cxD) = (4:ℝ) by
    linear_combination 2 * cxE_sq + cxD_sq - 2 * cxDE]
  exact not_overlap_of_sq_ge 4 le_rfl

/-- The 90-degree bubble stays clear of the first ring bubble. -/
theorem cx_ov3 : ¬ checkOverlap cxC3 cxB1 := by
  unfold checkOverlap
  simp only [cxC3, cxB1]
  rw [show (cxD - 0) * (cxD - 0) + ((0:ℝ) - -cxD) * ((0:ℝ) - -cxD) =
      8 + 4 * Real.sqrt 2 by linear_combination 2 * cxD_sq]
  exact not_overlap_of_sq_ge _ (by nlinarith [Real.sqrt_nonneg 2])

/-- The 135-degree bubble stays clear of the first ring bubble. -/
theorem cx_ov4 : ¬ checkOverlap cxC4 cxB1 := by
  unfold checkOverlap
  simp only [cxC4, cxB1]
  rw [show (cxE - 0) * (cxE - 0) + (cxE - -cxD) * (cxE - -cxD) =
      12 + 8 * Real.sqrt 2 by linear_combination 2 * cxE_sq + cxD_sq + 2 * cxDE]
  exact not_overlap_of_sq_ge _ (by nlinarith [Real.sqrt_nonneg 2])

/-- The 180-degree bubble stays clear of the first ring bubble. -/
theorem cx_ov5 : ¬ checkOverlap cxC5 cxB1 := by
  unfold checkOverlap
  simp only [cxC5, cxB1]
  rw [show ((0:ℝ) - 0) * ((0:ℝ) - 0) + (cxD - -cxD) * (cxD - -cxD) =
      16 + 8 * Real.sqrt 2 by linear_combination 4 * cxD_sq]
  exact not_overlap_of_sq_ge _ (by nlinarith [Real.sqrt_nonneg 2])

/-- The 225-degree bubble stays clear of the first ring bubble. -/
theorem cx_ov6 : ¬ checkOverlap cxC6 cxB1 := by
  unfold checkOverlap
  simp only [cxC6, cxB1]
  rw [show (-cxE - 0) * (-cxE - 0) + (cxE - -cxD) * (cxE - -cxD) =
      12 + 8 * Real.sqrt 2 by linear_combination 2 * cxE_sq + cxD_sq + 2 * cxDE]
  exact not_overlap_of_sq_ge _ (by nlinarith [Real.sqrt_nonneg 2])

/-- The 270-degree bubble stays clear of the first ring bubble. -/
theorem cx_ov7 : ¬ checkOverlap cxC7 cxB1 := by
  unfold checkOverlap
  simp only [cxC7, cxB1]
  rw [show (-cxD - 0) * (-cxD - 0) + ((0:ℝ) - -cxD) * ((0:ℝ) - -cxD) =
      8 + 4 * Real.sqrt 2 by linear_combination 2 * cxD_sq]
  exact not_overlap_of_sq_ge _ (by nlinarith [Real.sqrt_nonneg 2])

/-- The misplaced eighth unit bubble also stays clear of the first ring
bubble — the only overlap the loop ever checks at this point — so it is
accepted. -/
theorem cx_ov8 : ¬ checkOverlap cxC8 cxB1 := by
  unfold checkOverlap
  simp only [cxC8, cxB1]
  rw [show (cxE - 0) * (cxE - 0) + (cxE - -cxD) * (cxE - -cxD) =
      12 + 8 * Real.sqrt 2 by linear_combination 2 * cxE_sq + cxD_sq + 2 * cxDE]
  exact not_overlap_of_sq_ge _ (by nlinarith [Real.sqrt_nonneg 2])

/-- Plain-acceptance evaluation scheme for `packStep`. -/
theorem packStep_accept (st : PackState) (p : Bubble) (cand : Bubble)
    (hcand : candidateOf st p = cand)
    (hov : ¬ checkOverlap cand ((ringOf st).getD 0 dummyBubble))
    (hadv : ¬ (1 < st.stage ∧ st.k + 1 < (prevRingOf st).length ∧
      checkOverlap cand ((prevRingOf st).getD (st.k + 1) dummyBubble))) :
    packStep st p = { st with
      bubblePos := st.bubblePos.set st.stage ((ringOf st) ++ [cand]),
      j := st.j + 1 } := by
  simp only [packStep]
  simp only [candidateOf, ringOf, prevRingOf] at hcand hov hadv ⊢
  rw [hcand, if_neg hov, if_neg hadv]

/-- A unit radius is not coerced. -/
theorem coerceRadius_one (a b s q : ℝ) : coerceRadius ⟨a, b, 1, s, q⟩ = ⟨a, b, 1, s, q⟩ := by
  unfold coerceRadius
  rw [if_neg (by norm_num : ¬ ((Bubble.mk a b 1 s q).r = 0))]

/-- Loop state after step 2. -/
theorem cx_step2s : packStep ⟨[[cxB0], [cxB1]], 1, 0, 0⟩ ⟨0, 0, 1, 0, 2⟩ =
    ⟨[[cxB0], [cxB1, cxC2]], 1, 1, 0⟩ := by
  have hcand : candidateOf ⟨[[cxB0], [cxB1]], 1, 0, 0⟩ ⟨0, 0, 1, 0, 2⟩ = cxC2 := by
    show positionBubble cxB1 cxB0 (coerceRadius ⟨0, 0, 1, 0, 2⟩) = cxC2
    rw [coerceRadius_one]
    exact cx_pb2
  exact packStep_accept _ _ cxC2 hcand
    (by show ¬ checkOverlap cxC2 cxB1; exact cx_ov2) (by simp)

/-- Loop state after step 3. -/
theorem cx_step3s : packStep ⟨[[cxB0], [cxB1, cxC2]], 1, 1, 0⟩ ⟨0, 0, 1, 0, 3⟩ =
    ⟨[[cxB0], [cxB1, cxC2, cxC3]], 1, 2, 0⟩ := by
  have hcand : candidateOf ⟨[[cxB0], [cxB1, cxC2]], 1, 1, 0⟩ ⟨0, 0, 1, 0, 3⟩ = cxC3 := by
    show positionBubble cxC2 cxB0 (coerceRadius ⟨0, 0, 1, 0, 3⟩) = cxC3
    rw [coerceRadius_one]
    exact cx_pb3
  exact packStep_accept _ _ cxC3 hcand
    (by show ¬ checkOverlap cxC3 cxB1; exact cx_ov3) (by simp)

/-- Loop state after step 4. -/
theorem cx_step4s : packStep ⟨[[cxB0], [cxB1, cxC2, cxC3]], 1, 2, 0⟩ ⟨0, 0, 1, 0, 4⟩ =
    ⟨[[cxB0], [cxB1, cxC2, cxC3, cxC4]], 1, 3, 0⟩ := by
  have hcand : candidateOf ⟨[[cxB0], [cxB1, cxC2, cxC3]], 1, 2, 0⟩ ⟨0, 0, 1, 0, 4⟩ =
      cxC4 := by
    show positionBubble cxC3 cxB0 (coerceRadius ⟨0, 0, 1, 0, 4⟩) = cxC4
    rw [coerceRadius_one]
    exact cx_pb4
  exact packStep_accept _ _ cxC4 hcand
    (by show ¬ checkOverlap cxC4 cxB1; exact cx_ov4) (by simp)

/-- Loop state after step 5. -/
theorem cx_step5s : packStep ⟨[[cxB0], [cxB1, cxC2, cxC3, cxC4]], 1, 3, 0⟩
    ⟨0, 0, 1, 0, 5⟩ = ⟨[[cxB0], [cxB1, cxC2, cxC3, cxC4, cxC5]], 1, 4, 0⟩ := by
  have hcand : candidateOf ⟨[[cxB0], [cxB1, cxC2, cxC3, cxC4]], 1, 3, 0⟩
      ⟨0, 0, 1, 0, 5⟩ = cxC5 := by
    show positionBubble cxC4 cxB0 (coerceRadius ⟨0, 0, 1, 0, 5⟩) = cxC5
    rw [coerceRadius_one]
    exact cx_pb5
  exact packStep_accept _ _ cxC5 hcand
    (by show ¬ checkOverlap cxC5 cxB1; exact cx_ov5) (by simp)

/-- Loop state after step 6. -/
theorem cx_step6s : packStep ⟨[[cxB0], [cxB1, cxC2, cxC3, cxC4, cxC5]], 1, 4, 0⟩
    ⟨0, 0, 1, 0, 6⟩ = ⟨[[cxB0], [cxB1, cxC2, cxC3, cxC4, cxC5, cxC6]], 1, 5, 0⟩ := by
  have hcand : candidateOf ⟨[[cxB0], [cxB1, cxC2, cxC3, cxC4, cxC5]], 1, 4, 0⟩
      ⟨0, 0, 1, 0, 6⟩ = cxC6 := by
    show positionBubble cxC5 cxB0 (coerceRadius ⟨0, 0, 1, 0, 6⟩) = cxC6
    rw [coerceRadius_one]
    exact cx_pb6
  exact packStep_accept _ _ cxC6 hcand
    (by show ¬ checkOverlap cxC6 cxB1; exact cx_ov6) (by simp)

/-- Loop state after step 7. -/
theorem cx_step7s : packStep ⟨[[cxB0], [cxB1, cxC2, cxC3, cxC4, cxC5, cxC6]], 1, 5, 0⟩
    ⟨0, 0, 1, 0, 7⟩ =
    ⟨[[cxB0], [cxB1, cxC2, cxC3, cxC4, cxC5, cxC6, cxC7]], 1, 6, 0⟩ := by
  have hcand : candidateOf ⟨[[cxB0], [cxB1, cxC2, cxC3, cxC4, cxC5, cxC6]], 1, 5, 0⟩
      ⟨0, 0, 1, 0, 7⟩ = cxC7 := by
    show positionBubble cxC6 cxB0 (coerceRadius ⟨0, 0, 1, 0, 7⟩) = cxC7
    rw [coerceRadius_one]
    exact cx_pb7
  exact packStep_accept _ _ cxC7 hcand
    (by show ¬ checkOverlap cxC7 cxB1; exact cx_ov7) (by simp)

/-- Loop state after step 8: the misplaced bubble is accepted into ring 1. -/
theorem cx_step8s : packStep
    ⟨[[cxB0], [cxB1, cxC2, cxC3, cxC4, cxC5, cxC6, cxC7]], 1, 6, 0⟩ ⟨0, 0, 1, 0, 8⟩ =
    ⟨[[cxB0], [cxB1, cxC2, cxC3, cxC4, cxC5, cxC6, cxC7, cxC8]], 1, 7, 0⟩ := by
  have hcand : candidateOf
      ⟨[[cxB0], [cxB1, cxC2, cxC3, cxC4, cxC5, cxC6, cxC7]], 1, 6, 0⟩
      ⟨0, 0, 1, 0, 8⟩ = cxC8 := by
    show positionBubble cxC7 cxB0 (coerceRadius ⟨0, 0, 1, 0, 8⟩) = cxC8
    rw [coerceRadius_one]
    exact cx_pb8
  exact packStep_accept _ _ cxC8 hcand
    (by show ¬ checkOverlap cxC8 cxB1; exact cx_ov8) (by simp)

/-- The counterexample rows are already descending by radius. -/
theorem cx_pairwise : cxRows.Pairwise (fun a b => b.r ≤ a.r) := by
  have h1 : (1:ℝ) ≤ cxD - 1 := by linarith [cxD_ge2]
  unfold cxRows
  refine List.pairwise_cons.2 ⟨?_, ?_⟩
  · intro b hb
    simp only [List.mem_cons, List.not_mem_nil, or_false] at hb
    rcases hb with rfl | rfl | rfl | rfl | rfl | rfl | rfl | rfl
    all_goals simpa using h1
  · have hall : ∀ (l : List Bubble), (∀ p ∈ l, p.r = 1) →
        l.Pairwise (fun a b => b.r ≤ a.r) := by
      intro l
      induction l with
      | nil => intro _; constructor
      | cons q t ih =>
        intro h
        refine List.pairwise_cons.2 ⟨?_, ih (fun p hp => h p (List.mem_cons_of_mem _ hp))⟩
        intro b hb
        show b.r ≤ q.r
        rw [h b (List.mem_cons_of_mem _ hb), h q (List.mem_cons_self q t)]
    apply hall
    intro p hp
    simp only [List.mem_cons, List.not_mem_nil, or_false] at hp
    rcases hp with rfl | rfl | rfl | rfl | rfl | rfl | rfl | rfl
    all_goals rfl

/-- Sorting the counterexample rows is the identity. -/
theorem cx_sort : sortDesc cxRows =
    ⟨0, 0, cxD - 1, 0, 0⟩ :: ⟨0, 0, 1, 0, 1⟩ :: [⟨0, 0, 1, 0, 2⟩, ⟨0, 0, 1, 0, 3⟩,
      ⟨0, 0, 1, 0, 4⟩, ⟨0, 0, 1, 0, 5⟩, ⟨0, 0, 1, 0, 6⟩, ⟨0, 0, 1, 0, 7⟩,
      ⟨0, 0, 1, 0, 8⟩] := by
  rw [sortDesc_of_pairwise cxRows cx_pairwise]
  rfl

/-- The seed state of the counterexample run. -/
theorem cx_init : initState ⟨0, 0, cxD - 1, 0, 0⟩ ⟨0, 0, 1, 0, 1⟩ =
    ⟨[[cxB0], [cxB1]], 1, 0, 0⟩ := by
  unfold initState cxB0 cxB1
  norm_num
  ring

/-- The loop run on the counterexample rows produces the octagon layout with
the duplicated 135-degree position. -/
theorem cx_rawPositions : rawPositions cxRows = cxLayout := by
  unfold rawPositions placeBubblesLoop
  rw [cx_sort]
  show ((List.foldl packStep (initState ⟨0, 0, cxD - 1, 0, 0⟩ ⟨0, 0, 1, 0, 1⟩)
    [⟨0, 0, 1, 0, 2⟩, ⟨0, 0, 1, 0, 3⟩, ⟨0, 0, 1, 0, 4⟩, ⟨0, 0, 1, 0, 5⟩,
     ⟨0, 0, 1, 0, 6⟩, ⟨0, 0, 1, 0, 7⟩, ⟨0, 0, 1, 0, 8⟩]).bubblePos).flatten = cxLayout
  rw [cx_init, List.foldl_cons, cx_step2s, List.foldl_cons, cx_step3s, List.foldl_cons,
    cx_step4s, List.foldl_cons, cx_step5s, List.foldl_cons, cx_step6s, List.foldl_cons,
    cx_step7s, List.foldl_cons, cx_step8s, List.foldl_nil]
  rfl

/-- Left edge of the counterexample layout's bounding box. -/
theorem cx_minX : minXOf cxLayout = -cxD - 1 := by
  refine le_antisymm ?_ ?_
  · exact foldl_min_le_mem (fun p => p.x - p.r)
      [cxB1, cxC2, cxC3, cxC4, cxC5, cxC6, cxC7, cxC8] (cxB0.x - cxB0.r) cxC7 (by simp)
  · refine le_foldl_min (fun p => p.x - p.r) (-cxD - 1)
      [cxB1, cxC2, cxC3, cxC4, cxC5, cxC6, cxC7, cxC8] (cxB0.x - cxB0.r)
      (by simp only [cxB0]; linarith [cxD_pos]) ?_
    intro p hp
    simp only [List.mem_cons, List.not_mem_nil, or_false] at hp
    rcases hp with rfl | rfl | rfl | rfl | rfl | rfl | rfl | rfl
    all_goals simp only [cxB1, cxC2, cxC3, cxC4, cxC5, cxC6, cxC7, cxC8]
    all_goals nlinarith [cxD_pos, cxE_pos, cxE_lt_cxD]

/-- Right edge of the counterexample layout's bounding box. -/
theorem cx_maxX : maxXOf cxLayout = cxD + 1 := by
  refine le_antisymm ?_ ?_
  · refine foldl_max_le (fun p => p.x + p.r) (cxD + 1)
      [cxB1, cxC2, cxC3, cxC4, cxC5, cxC6, cxC7, cxC8] (cxB0.x + cxB0.r)
      (by simp only [cxB0]; linarith [cxD_pos]) ?_
    intro p hp
    simp only [List.mem_cons, List.not_mem_nil, or_false] at hp
    rcases hp with rfl | rfl | rfl | rfl | rfl | rfl | rfl | rfl
    all_goals simp only [cxB1, cxC2, cxC3, cxC4, cxC5, cxC6, cxC7, cxC8]
    all_goals nlinarith [cxD_pos, cxE_pos, cxE_lt_cxD]
  · exact le_foldl_max_mem (fun p => p.x + p.r)
      [cxB1, cxC2, cxC3, cxC4, cxC5, cxC6, cxC7, cxC8] (cxB0.x + cxB0.r) cxC3 (by simp)

/-- Top edge of the counterexample layout's bounding box. -/
theorem cx_minY : minYOf cxLayout = -cxD - 1 := by
  refine le_antisymm ?_ ?_
  · exact foldl_min_le_mem (fun p => p.y - p.r)
      [cxB1, cxC2, cxC3, cxC4, cxC5, cxC6, cxC7, cxC8] (cxB0.y - cxB0.r) cxB1 (by simp)
  · refine le_foldl_min (fun p => p.y - p.r) (-cxD - 1)
      [cxB1, cxC2, cxC3, cxC4, cxC5, cxC6, cxC7, cxC8] (cxB0.y - cxB0.r)
      (by simp only [cxB0]; linarith [cxD_pos]) ?_
    intro p hp
    simp only [List.mem_cons, List.not_mem_nil, or_false] at hp
    rcases hp with rfl | rfl | rfl | rfl | rfl | rfl | rfl | rfl
    all_goals simp only [cxB1, cxC2, cxC3, cxC4, cxC5, cxC6, cxC7, cxC8]
    all_goals nlinarith [cxD_pos, cxE_pos, cxE_lt_cxD]

/-- Bottom edge of the counterexample layout's bounding box. -/
theorem cx_maxY : maxYOf cxLayout = cxD + 1 := by
  refine le_antisymm ?_ ?_
  · refine foldl_max_le (fun p => p.y + p.r) (cxD + 1)
      [cxB1, cxC2, cxC3, cxC4, cxC5, cxC6, cxC7, cxC8] (cxB0.y + cxB0.r)
      (by simp only [cxB0]; linarith [cxD_pos]) ?_
    intro p hp
    simp only [List.mem_cons, List.not_mem_nil, or_false] at hp
    rcases hp with rfl | rfl | rfl | rfl | rfl | rfl | rfl | rfl
    all_goals simp only [cxB1, cxC2, cxC3, cxC4, cxC5, cxC6, cxC7, cxC8]
    all_goals nlinarith [cxD_pos, cxE_pos, cxE_lt_cxD]
  · exact le_foldl_max_mem (fun p => p.y + p.r)
      [cxB1, cxC2, cxC3, cxC4, cxC5, cxC6, cxC7, cxC8] (cxB0.y + cxB0.r) cxC5 (by simp)

/-- With a plot area matching the bounding box exactly, the scale factor of
the counterexample layout is exactly 1. -/
theorem cx_smaller :
    smallerDimension ⟨0, 0, 2 * cxD + 2, 2 * cxD + 2⟩ cxLayout = 1 := by
  unfold smallerDimension
  rw [cx_minX, cx_maxX, cx_minY, cx_maxY]
  have hr : (2 * cxD + 2 - (0:ℝ)) / (cxD + 1 - (-cxD - 1)) = 1 := by
    rw [show cxD + 1 - (-cxD - 1) = 2 * cxD + 2 by ring,
      show (2 * cxD + 2 - (0:ℝ)) = 2 * cxD + 2 by ring]
    exact div_self (by nlinarith [cxD_pos])
  show min ((2 * cxD + 2 - 0) / (cxD + 1 - (-cxD - 1)))
    ((2 * cxD + 2 - 0) / (cxD + 1 - (-cxD - 1))) = 1
  rw [hr, min_self]

/-- `resizeRadius` accepts the counterexample layout: the scale factor is
within tolerance and the centering offsets are emitted — the layout is
finalized, no repack happens. -/
theorem cx_finalized :
    resizeRadius ⟨0, 0, 2 * cxD + 2, 2 * cxD + 2⟩ cxLayout =
      Sum.inr (cxD + 1, cxD + 1) := by
  unfold resizeRadius
  rw [cx_smaller, if_neg (by norm_num), cx_minX, cx_maxX, cx_minY, cx_maxY]
  show Sum.inr ((2 * cxD + 2) / 2 + 0 - (-cxD - 1) - (cxD + 1 - (-cxD - 1)) / 2,
    (2 * cxD + 2) / 2 + 0 - (-cxD - 1) - (cxD + 1 - (-cxD - 1)) / 2) = _
  rw [show (2 * cxD + 2) / 2 + 0 - (-cxD - 1) - (cxD + 1 - (-cxD - 1)) / 2 = cxD + 1
    by ring]

/-- C1 counterexample: the nine-point population `cxRows` produces a layout
that `resizeRadius` finalizes (scale factor exactly 1, no repack), yet the
flattened `rawPositions` contain two distinct circles — the fifth and the
ninth — at the same center with radius 1 each, which `checkOverlap` reports
as overlapping. -/
theorem finalized_layout_overlap_counterexample :
    rawPositions cxRows = cxLayout ∧
    resizeRadius ⟨0, 0, 2 * cxD + 2, 2 * cxD + 2⟩ (rawPositions cxRows) =
      Sum.inr (cxD + 1, cxD + 1) ∧
    (rawPositions cxRows).getD 4 dummyBubble = cxC4 ∧
    (rawPositions cxRows).getD 8 dummyBubble = cxC8 ∧
    cxC4 ≠ cxC8 ∧
    checkOverlap cxC4 cxC8 := by
  refine ⟨cx_rawPositions, ?_, ?_, ?_, ?_, ?_⟩
  · rw [cx_rawPositions]; exact cx_finalized
  · rw [cx_rawPositions]; rfl
  · rw [cx_rawPositions]; rfl
  · intro hcontra
    have h48 := congrArg Bubble.pointIx hcontra
    simp only [cxC4, cxC8] at h48
    exact absurd h48 (by norm_num)
  · unfold checkOverlap
    simp only [cxC4, cxC8]
    rw [show (cxE - cxE) * (cxE - cxE) + (cxE - cxE) * (cxE - cxE) = (0:ℝ) by ring,
      Real.sqrt_zero]
    norm_num
